import Mathlib

/-!
Shallow embedding of `tealc.py`, a line-oriented assembler producing TEAL
bytecode.  Pure Python functions become Lean functions; the mutable
`Assembler` object becomes an explicit state record threaded through
`Except String` (a raised Python exception is modelled as `.error msg`
carrying the exception's message text).  Bytes are `Nat`s (< 256 by
construction), byte buffers are `List Nat`.

External collaborators (per the repository: the opcode table loaded from
`langspec.json`, and `algosdk.encoding.decode_address`) are not part of the
source tree; they are passed in as parameters of the assembler session and
never fixed, so every theorem quantifies over them where they matter.
-/

set_option maxRecDepth 10000

/-- Python single-quote used when reproducing `repr` in exception texts. -/
def pyQuote : String := "\x27"

/-- Python `repr` of a string, for the simple quote-free strings that occur in
the assembler's error messages. -/
def pyRepr (s : String) : String := pyQuote ++ s ++ pyQuote

/-- Python `repr` of a list of strings, e.g. `['a', 'b']`. -/
def pyReprList (xs : List String) : String :=
  "[" ++ String.intercalate ", " (xs.map pyRepr) ++ "]"

/-- Fueled worker for `to_varuint`; fuel bounds the iteration count of the
source's `while True` loop (one byte per 7 bits, so `x` itself is ample). -/
def to_varuintGo : Nat → Nat → List Nat
  | 0, x => [x % 128]
  | fuel + 1, x => if x < 128 then [x] else (x % 128 + 128) :: to_varuintGo fuel (x / 128)

/-- `to_varuint` from tealc.py: 7 bits per byte, low group first, high bit set
on every byte except the last. -/
def to_varuint (x : Nat) : List Nat := to_varuintGo x x

/-- Value of a decimal digit character. -/
def decDigit (c : Char) : Option Nat :=
  if '0' ≤ c ∧ c ≤ '9' then some (c.toNat - '0'.toNat) else none

/-- Value of a hexadecimal digit character (both cases). -/
def hexDigit (c : Char) : Option Nat :=
  if '0' ≤ c ∧ c ≤ '9' then some (c.toNat - '0'.toNat)
  else if 'a' ≤ c ∧ c ≤ 'f' then some (c.toNat - 'a'.toNat + 10)
  else if 'A' ≤ c ∧ c ≤ 'F' then some (c.toNat - 'A'.toNat + 10)
  else none

/-- Value of an octal digit character. -/
def octDigit (c : Char) : Option Nat :=
  if '0' ≤ c ∧ c ≤ '7' then some (c.toNat - '0'.toNat) else none

/-- Value of a binary digit character. -/
def binDigit (c : Char) : Option Nat :=
  if c = '0' then some 0 else if c = '1' then some 1 else none

/-- Digit that may only be `'0'` (used for Python's base-0 rule that a literal
starting with `0` and no base marker may contain only zeros). -/
def zeroDigit (c : Char) : Option Nat :=
  if c = '0' then some 0 else none

/-- Continue a Python numeric literal after at least one digit has been read:
further digits, with single underscores allowed only between digits. -/
def pyDigitsGo (dv : Char → Option Nat) (base : Nat) : Nat → List Char → Option Nat
  | acc, [] => some acc
  | acc, '_' :: c :: rest =>
    match dv c with
    | some d => pyDigitsGo dv base (acc * base + d) rest
    | none => none
  | _, ['_'] => none
  | acc, c :: rest =>
    match dv c with
    | some d => pyDigitsGo dv base (acc * base + d) rest
    | none => none

/-- Parse a full Python digit run.  `allowLeadU` permits one leading
underscore (legal directly after a base marker, as in `0x_ff`). -/
def pyDigits (dv : Char → Option Nat) (base : Nat) (allowLeadU : Bool) :
    List Char → Option Nat
  | [] => none
  | '_' :: rest =>
    if allowLeadU then
      match rest with
      | [] => none
      | c :: rest2 =>
        match dv c with
        | some d => pyDigitsGo dv base d rest2
        | none => none
    else none
  | c :: rest =>
    match dv c with
    | some d => pyDigitsGo dv base d rest
    | none => none

/-- Whitespace test matching Python `str.strip` / `str.split` on the ASCII
range used by assembly sources. -/
def pyIsSpace (c : Char) : Bool :=
  c == ' ' || c == '\t' || c == '\n' || c == '\r' || c == '\x0b' || c == '\x0c'

/-- Python `str.strip()` on a character list. -/
def pyStripChars (cs : List Char) : List Char :=
  ((cs.dropWhile pyIsSpace).reverse.dropWhile pyIsSpace).reverse

/-- Unsigned part of a Python int literal, after sign removal. -/
def pyIntBody : List Char → Option Nat
  | '0' :: m :: rest =>
    if m = 'x' ∨ m = 'X' then pyDigits hexDigit 16 true rest
    else if m = 'o' ∨ m = 'O' then pyDigits octDigit 8 true rest
    else if m = 'b' ∨ m = 'B' then pyDigits binDigit 2 true rest
    else pyDigits zeroDigit 10 false ('0' :: m :: rest)
  | cs => pyDigits decDigit 10 false cs

/-- Python `int(s, base=0)`: strips whitespace, optional sign, then a
base-prefixed or plain-decimal literal; decimal literals may not have leading
zeros; underscores allowed between digits.  Failure carries Python's
`ValueError` message. -/
def pyIntBase0 (s : String) : Except String Int :=
  let t := pyStripChars s.data
  let res : Option Int :=
    match t with
    | '+' :: body => (pyIntBody body).map Int.ofNat
    | '-' :: body => (pyIntBody body).map (fun n => - Int.ofNat n)
    | body => (pyIntBody body).map Int.ofNat
  match res with
  | some v => .ok v
  | none => .error ("invalid literal for int() with base 0: " ++ pyRepr s)

/-- Python `int(s)` (base 10): like `pyIntBase0` but leading zeros are legal
and no base markers are recognized. -/
def pyIntBase10 (s : String) : Except String Int :=
  let t := pyStripChars s.data
  let body : List Char := match t with
    | '+' :: body => body
    | '-' :: body => body
    | body => body
  let neg : Bool := match t with
    | '-' :: _ => true
    | _ => false
  match pyDigits decDigit 10 false body with
  | some n => .ok (if neg then - Int.ofNat n else Int.ofNat n)
  | none => .error ("invalid literal for int() with base 10: " ++ pyRepr s)

/-- Big-endian 5-byte rendering of a 40-bit accumulator
(`acc.to_bytes(5, 'big')` in the source of `base64.b32decode`). -/
def toBytes5 (acc : Nat) : List Nat :=
  [acc / 2 ^ 32 % 256, acc / 2 ^ 24 % 256, acc / 2 ^ 16 % 256, acc / 2 ^ 8 % 256, acc % 256]

/-- Reverse lookup of the RFC 4648 base-32 alphabet (uppercase only, as
`base64.b32decode` is called with `casefold=False`). -/
def b32Digit (c : Char) : Option Nat :=
  if 'A' ≤ c ∧ c ≤ 'Z' then some (c.toNat - 'A'.toNat)
  else if '2' ≤ c ∧ c ≤ '7' then some (c.toNat - '2'.toNat + 26)
  else none

/-- Decode base-32 quanta of 8 five-bit digits each (the per-chunk loop of
CPython's `b32decode`), returning the concatenated 5-byte groups and the
accumulator of the final (possibly partial) chunk.  Fueled on the list
length, which bounds the number of chunks. -/
def b32Quanta : Nat → List Nat → List Nat × Nat
  | _, [] => ([], 0)
  | 0, vs =>
    let acc := vs.foldl (fun a d => a * 32 + d) 0
    (toBytes5 acc, acc)
  | fuel + 1, v :: vs =>
    let chunk := (v :: vs).take 8
    let acc := chunk.foldl (fun a d => a * 32 + d) 0
    let rest := (v :: vs).drop 8
    if rest.isEmpty then (toBytes5 acc, acc)
    else
      let (tl, lastAcc) := b32Quanta fuel rest
      (toBytes5 acc ++ tl, lastAcc)

/-- CPython `base64.b32decode(s)` with default arguments: requires the input
length to be a multiple of 8 (strict padding), strips trailing `=`, decodes
5-bit digits, and fixes up the final partial quanta from the pad count. -/
def b32decode (cs : List Char) : Except String (List Nat) :=
  if cs.length % 8 ≠ 0 then .error "Incorrect padding"
  else
    let stripped := (cs.reverse.dropWhile (· = '=')).reverse
    let padchars := cs.length - stripped.length
    match stripped.mapM b32Digit with
    | none => .error "Non-base32 digit found"
    | some vals =>
      if padchars ∉ ([0, 1, 3, 4, 6] : List Nat) then .error "Incorrect padding"
      else
        let (decoded, lastAcc) := b32Quanta vals.length vals
        if padchars ≠ 0 ∧ decoded ≠ [] then
          let shifted := lastAcc * 2 ^ (5 * padchars)
          let leftover := (43 - 5 * padchars) / 8
          .ok (decoded.dropLast.dropLast.dropLast.dropLast.dropLast
            ++ (toBytes5 shifted).take leftover)
        else .ok decoded

/-- Reverse lookup of the standard base-64 alphabet. -/
def b64Digit (c : Char) : Option Nat :=
  if 'A' ≤ c ∧ c ≤ 'Z' then some (c.toNat - 'A'.toNat)
  else if 'a' ≤ c ∧ c ≤ 'z' then some (c.toNat - 'a'.toNat + 26)
  else if '0' ≤ c ∧ c ≤ '9' then some (c.toNat - '0'.toNat + 52)
  else if c = '+' then some 62
  else if c = '/' then some 63
  else none

/-- Decode base-64 digit groups: each full group of 4 six-bit digits gives 3
bytes, a trailing group of 3 gives 2 bytes, of 2 gives 1 byte, and a trailing
single digit is an error.  Fueled on the list length. -/
def b64Groups : Nat → List Nat → Except String (List Nat)
  | _, [] => .ok []
  | _, [_] => .error "Invalid base64-encoded string"
  | _, [a, b] => .ok [(a * 4 + b / 16) % 256]
  | _, [a, b, c] =>
    .ok [(a * 4 + b / 16) % 256, (b % 16 * 16 + c / 4) % 256]
  | 0, _ :: _ :: _ :: _ :: _ => .error "Invalid base64-encoded string"
  | fuel + 1, a :: b :: c :: d :: rest => do
    let tl ← b64Groups fuel rest
    .ok ([(a * 4 + b / 16) % 256, (b % 16 * 16 + c / 4) % 256, (c % 4 * 64 + d) % 256] ++ tl)

/-- CPython `base64.b64decode(s)` on well-formed inputs: total length a
multiple of 4, optional trailing `=` padding, all other characters from the
standard alphabet. -/
def b64decode (cs : List Char) : Except String (List Nat) :=
  let stripped := (cs.reverse.dropWhile (· = '=')).reverse
  match stripped.mapM b64Digit with
  | none => .error "Invalid base64-encoded string"
  | some vals =>
    if cs.length % 4 ≠ 0 then .error "Incorrect padding"
    else b64Groups vals.length vals

/-- Pair up hex digits into bytes; an odd trailing digit is the
`binascii.Error` raised by `unhexlify`. -/
def hexPairs : List Char → Except String (List Nat)
  | [] => .ok []
  | [_] => .error "Odd-length string"
  | a :: b :: rest => do
    match hexDigit a, hexDigit b with
    | some x, some y =>
      let tl ← hexPairs rest
      .ok ((x * 16 + y) :: tl)
    | _, _ => .error "Non-base16 digit found"

/-- CPython `base64.b16decode` (the caller upper-cases first, so only
uppercase hex digits occur): rejects non-hex characters, then unhexlifies. -/
def b16decode (cs : List Char) : Except String (List Nat) :=
  if cs.any (fun c => (hexDigit c).isNone || (decide ('a' ≤ c) && decide (c ≤ 'f'))) then
    .error "Non-base16 digit found"
  else hexPairs cs


/-- Match of the anchored regex `NAME\((.*?)\)` against a token: the token
must start with `NAME(`, and the payload runs to the first `)` thereafter
(the closing parenthesis must exist for the regex to match). -/
def parenPayload (name : List Char) (tok : List Char) : Option (List Char) :=
  if List.isPrefixOf (name ++ ['(']) tok then
    let after := tok.drop (name.length + 1)
    if (after.dropWhile (· ≠ ')')).isEmpty then none
    else some (after.takeWhile (· ≠ ')'))
  else none

/-- `parseByteConstant` from tealc.py: recognizes `b32`/`base32` and
`b64`/`base64` with the payload as the following token, `0x...` hex, and the
parenthesized single-token forms; returns the decoded bytes and the tokens it
did not consume.  A missing payload token is Python's `IndexError` from
`args[1]`. -/
def parseByteConstant : List String → Except String (List Nat × List String)
  | [] => .error "IndexError: list index out of range"
  | a0 :: rest =>
    if a0 = "b32" ∨ a0 = "base32" then
      match rest with
      | [] => .error "IndexError: list index out of range"
      | a1 :: rest2 => do
        let v ← b32decode a1.data
        .ok (v, rest2)
    else if a0 = "b64" ∨ a0 = "base64" then
      match rest with
      | [] => .error "IndexError: list index out of range"
      | a1 :: rest2 => do
        let v ← b64decode a1.data
        .ok (v, rest2)
    else if List.isPrefixOf ['0', 'x'] a0.data then do
      let v ← b16decode ((a0.data.drop 2).map Char.toUpper)
      .ok (v, rest)
    else
      match parenPayload "b32".data a0.data <|> parenPayload "base32".data a0.data with
      | some payload => do
        let v ← b32decode payload
        .ok (v, rest)
      | none =>
        match parenPayload "b64".data a0.data <|> parenPayload "base64".data a0.data with
        | some payload => do
          let v ← b64decode payload
          .ok (v, rest)
        | none => .error ("could not parse byte constant args " ++ pyReprList (a0 :: rest))

/-- One record of the external opcode table (`langspec.json`): field names
mirror the JSON keys the source reads.  A record with no `ArgEnum` key is
modelled with an empty list. -/
structure Op where
  Name : String
  Opcode : Nat
  ArgEnum : List String

/-- The `Assembler` object's mutable state, plus its two external
collaborators (`opByName` wraps the loaded opcode table, `decodeAddress`
wraps `algosdk.encoding.decode_address`), carried as fields the way the
Python object holds them. -/
structure Assembler where
  out : List Nat
  intc : List Int
  intcWritten : Bool
  bytec : List (List Nat)
  bytecWritten : Bool
  sourceName : String
  sourceLine : Nat
  labels : List (String × Nat)
  labelReferences : List (Nat × Nat × String)
  opByName : String → Option Op
  decodeAddress : String → Except String (List Nat)
  version : Nat

/-- `Assembler.__init__`: note that the `versionArg` parameter is accepted
and then ignored — the constructor body unconditionally assigns
`self.version = 1` (tealc.py line 86). -/
def Assembler.init (opByName : String → Option Op)
    (decodeAddress : String → Except String (List Nat))
    (sourceName : String) (_versionArg : Int) : Assembler :=
  { out := [], intc := [], intcWritten := false, bytec := [], bytecWritten := false,
    sourceName := sourceName, sourceLine := 0, labels := [], labelReferences := [],
    opByName := opByName, decodeAddress := decodeAddress, version := 1 }

/-- First-match lookup in the label table (a Python dict keyed by strings;
keys are unique because `setLabel` rejects duplicates). -/
def lookupLabel : List (String × Nat) → String → Option Nat
  | [], _ => none
  | (k, v) :: rest, l => if k = l then some v else lookupLabel rest l

/-- Index of the first occurrence of `v`, mirroring the linear scans
`for i,v in enumerate(self.intc)` / `(self.bytec)` in the source. -/
def scanIndex {α : Type} [DecidableEq α] : List α → α → Option Nat
  | [], _ => none
  | x :: xs, v => if x = v then some 0 else (scanIndex xs v).map (· + 1)

/-- The shared intern step of `assemble_int` and `bytestring`: scan for the
value, appending it at the end on a miss; returns the index and the updated
pool. -/
def internConst {α : Type} [DecidableEq α] (pool : List α) (val : α) : Nat × List α :=
  match scanIndex pool val with
  | some i => (i, pool)
  | none => (pool.length, pool ++ [val])

/-- `Assembler.setLabel`. -/
def setLabel (a : Assembler) (label : String) : Except String Assembler :=
  if (lookupLabel a.labels label).isSome then
    .error ("duplicate label " ++ pyRepr label)
  else .ok { a with labels := a.labels ++ [(label, a.out.length)] }

/-- `Assembler.write_intc`: fast single-byte opcodes for indices 0–3, the
two-byte generic form otherwise, failing on indices above 255 or below 0. -/
def write_intc (a : Assembler) (constIndex : Int) : Except String Assembler :=
  if constIndex = 0 then .ok { a with out := a.out ++ [0x22] }
  else if constIndex = 1 then .ok { a with out := a.out ++ [0x23] }
  else if constIndex = 2 then .ok { a with out := a.out ++ [0x24] }
  else if constIndex = 3 then .ok { a with out := a.out ++ [0x25] }
  else if constIndex > 0xff then .error "cannot have more than 256 int constants"
  else if constIndex < 0 then .error "invalid negative intc const index"
  else .ok { a with out := a.out ++ [0x21, constIndex.toNat] }

/-- `Assembler.assemble_int`. -/
def assemble_int (a : Assembler) (_op : Option Op) (args : List String) :
    Except String Assembler :=
  match args with
  | [arg0] => do
    let val ← pyIntBase0 arg0
    write_intc { a with intc := (internConst a.intc val).2 }
      (Int.ofNat (internConst a.intc val).1)
  | _ => .error "int expects 1 arg"

/-- `Assembler.assemble_intc`: a direct, unchecked pool reference. -/
def assemble_intc (a : Assembler) (_op : Option Op) (args : List String) :
    Except String Assembler :=
  match args with
  | [arg0] => do
    let val ← pyIntBase0 arg0
    write_intc a val
  | _ => .error "intc expects 1 arg"

/-- Bytes emitted by `Assembler.write_intcblock`: tag `0x20`, a varuint
count, then each value as a varuint.  Python's `to_varuint` loops forever on
a negative value; that case is modelled as an error so the function stays
total (no theorem below relies on it). -/
def write_intcblock (intc : List Int) : Except String (List Nat) := do
  let bodies ← intc.mapM (fun v =>
    if v < 0 then Except.error "to_varuint does not terminate on negative values"
    else Except.ok (to_varuint v.toNat))
  .ok (0x20 :: (to_varuint intc.length ++ bodies.flatten))

/-- `Assembler.assemble_intcblock`: emits the block inline, marks the pool as
written, and replaces the pool with the listed values (duplicates and all). -/
def assemble_intcblock (a : Assembler) (_op : Option Op) (args : List String) :
    Except String Assembler := do
  let intc ← args.mapM pyIntBase0
  let blk ← write_intcblock intc
  .ok { a with out := a.out ++ blk, intcWritten := true, intc := intc }

/-- `Assembler.write_bytec`, the byte-pool twin of `write_intc`. -/
def write_bytec (a : Assembler) (constIndex : Int) : Except String Assembler :=
  if constIndex = 0 then .ok { a with out := a.out ++ [0x28] }
  else if constIndex = 1 then .ok { a with out := a.out ++ [0x29] }
  else if constIndex = 2 then .ok { a with out := a.out ++ [0x2a] }
  else if constIndex = 3 then .ok { a with out := a.out ++ [0x2b] }
  else if constIndex > 0xff then .error "cannot have more than 256 byte constants"
  else if constIndex < 0 then .error "invalid negative bytec const index"
  else .ok { a with out := a.out ++ [0x27, constIndex.toNat] }

/-- `Assembler.assemble_bytec` (argument parsed with plain `int(...)`). -/
def assemble_bytec (a : Assembler) (_op : Option Op) (args : List String) :
    Except String Assembler :=
  match args with
  | [arg0] => do
    let val ← pyIntBase10 arg0
    write_bytec a val
  | _ => .error "bytec expects 1 arg"

/-- `Assembler.bytestring`: intern a byte string and emit a reference. -/
def bytestring (a : Assembler) (val : List Nat) : Except String Assembler :=
  write_bytec { a with bytec := (internConst a.bytec val).2 }
    (Int.ofNat (internConst a.bytec val).1)

/-- `Assembler.assemble_addr`: the decode failure of the external utility
propagates. -/
def assemble_addr (a : Assembler) (_op : Option Op) (args : List String) :
    Except String Assembler :=
  match args with
  | [arg0] => do
    let addr ← a.decodeAddress arg0
    bytestring a addr
  | _ => .error "addr expects 1 arg"

/-- `Assembler.assemble_byte`: requires at least one argument, parses one
byte constant, and DISCARDS whatever tokens the parser did not consume
(`val, _ = parseByteConstant(args)` in the source). -/
def assemble_byte (a : Assembler) (_op : Option Op) (args : List String) :
    Except String Assembler :=
  if args.length < 1 then .error "byte expects an args"
  else do
    let vp ← parseByteConstant args
    bytestring a vp.1

/-- Bytes emitted by `Assembler.write_bytecblock`: tag `0x26`, a varuint
count, then each value's varuint length followed by its bytes. -/
def write_bytecblock (bytec : List (List Nat)) : List Nat :=
  0x26 :: (to_varuint bytec.length ++ (bytec.map (fun x => to_varuint x.length ++ x)).flatten)

/-- The `while args:` loop of `assemble_bytecblock`, fueled by the token
count (each `parseByteConstant` call consumes at least one token, so the
fuel-exhausted branch is unreachable). -/
def parseByteConstantsGo : Nat → List String → Except String (List (List Nat))
  | _, [] => .ok []
  | 0, _ :: _ => .error "fuel exhausted"
  | fuel + 1, args => do
    let (val, rest) ← parseByteConstant args
    let tl ← parseByteConstantsGo fuel rest
    .ok (val :: tl)

/-- `Assembler.assemble_bytecblock`. -/
def assemble_bytecblock (a : Assembler) (_op : Option Op) (args : List String) :
    Except String Assembler := do
  let bytec ← parseByteConstantsGo args.length args
  .ok { a with out := a.out ++ write_bytecblock bytec, bytecWritten := true, bytec := bytec }

/-- `Assembler.assemble_arg`, with its own fast opcodes for slots 0–3. -/
def assemble_arg (a : Assembler) (op : Option Op) (args : List String) :
    Except String Assembler :=
  match args with
  | [arg0] => do
    let constIndex ← pyIntBase10 arg0
    if constIndex = 0 then .ok { a with out := a.out ++ [0x2d] }
    else if constIndex = 1 then .ok { a with out := a.out ++ [0x2e] }
    else if constIndex = 2 then .ok { a with out := a.out ++ [0x2f] }
    else if constIndex = 3 then .ok { a with out := a.out ++ [0x30] }
    else if constIndex > 0xff then .error "cannot have more than 256 args"
    else if constIndex < 0 then .error "invalid negative arg index"
    else .ok { a with out := a.out ++ [0x2c, constIndex.toNat] }
  | _ =>
    match op with
    | none => .error "TypeError: NoneType is not subscriptable"
    | some o => .error (o.Name ++ " expects 1 arg, got " ++ pyReprList args)

/-- `Assembler.assemble_txn`: enum-argument accessor.  Accessing a field of a
`None` op (possible only if the mnemonic is missing from the opcode table) is
Python's `TypeError`; the `bytes(...)` range failure likewise keeps its
Python message. -/
def assemble_txn (a : Assembler) (op : Option Op) (args : List String) :
    Except String Assembler :=
  match op with
  | none => .error "TypeError: NoneType is not subscriptable"
  | some o =>
    match args with
    | [arg0] =>
      match scanIndex o.ArgEnum arg0 with
      | some i =>
        if o.Opcode ≤ 0xff ∧ i ≤ 0xff then .ok { a with out := a.out ++ [o.Opcode, i] }
        else .error "bytes must be in range(0, 256)"
      | none => .error (o.Name ++ " unknown arg " ++ arg0)
    | _ => .error (o.Name ++ " expects one argument")

/-- `Assembler.assemble_gtxn`: group index plus enum argument. -/
def assemble_gtxn (a : Assembler) (op : Option Op) (args : List String) :
    Except String Assembler :=
  match op with
  | none => .error "TypeError: NoneType is not subscriptable"
  | some o =>
    match args with
    | [arg0, arg1] => do
      let gtid ← pyIntBase10 arg0
      match scanIndex o.ArgEnum arg1 with
      | some i =>
        if 0 ≤ gtid ∧ gtid ≤ 0xff ∧ o.Opcode ≤ 0xff ∧ i ≤ 0xff then
          .ok { a with out := a.out ++ [o.Opcode, gtid.toNat, i] }
        else .error "bytes must be in range(0, 256)"
      | none => .error (o.Name ++ " unknown arg " ++ arg1)
    | _ => .error (o.Name ++ " expects two arguments")

/-- `Assembler.assemble_global` (same shape as `assemble_txn`). -/
def assemble_global (a : Assembler) (op : Option Op) (args : List String) :
    Except String Assembler :=
  match op with
  | none => .error "TypeError: NoneType is not subscriptable"
  | some o =>
    match args with
    | [arg0] =>
      match scanIndex o.ArgEnum arg0 with
      | some i =>
        if o.Opcode ≤ 0xff ∧ i ≤ 0xff then .ok { a with out := a.out ++ [o.Opcode, i] }
        else .error "bytes must be in range(0, 256)"
      | none => .error (o.Name ++ " unknown arg " ++ arg0)
    | _ => .error (o.Name ++ " expects one argument")

/-- `Assembler.assemble_bnz`: records a label reference at the current
offset and reserves the fixed 3-byte branch `40 00 00`.  With no argument,
`args[0]` is Python's `IndexError`; extra arguments are silently unused. -/
def assemble_bnz (a : Assembler) (_op : Option Op) (args : List String) :
    Except String Assembler :=
  match args with
  | [] => .error "IndexError: list index out of range"
  | label :: _ =>
    .ok { a with
      labelReferences := a.labelReferences ++ [(a.sourceLine, a.out.length, label)],
      out := a.out ++ [0x40, 0x00, 0x00] }

/-- `Assembler._load_store`, shared by `load` and `store`: opcode byte plus a
raw slot byte, with no validation beyond `bytes(...)`'s own range check. -/
def load_store (a : Assembler) (op : Option Op) (args : List String) :
    Except String Assembler :=
  match args with
  | [arg0] => do
    let arg ← pyIntBase10 arg0
    match op with
    | none => .error "TypeError: NoneType is not subscriptable"
    | some o =>
      if 0 ≤ arg ∧ arg ≤ 0xff ∧ o.Opcode ≤ 0xff then
        .ok { a with out := a.out ++ [o.Opcode, arg.toNat] }
      else .error "bytes must be in range(0, 256)"
  | _ =>
    match op with
    | none => .error "TypeError: NoneType is not subscriptable"
    | some o => .error (o.Name ++ " expects 1 arg, got " ++ pyReprList args)

/-- `Assembler.assemble_load`. -/
def assemble_load (a : Assembler) (op : Option Op) (args : List String) :
    Except String Assembler :=
  load_store a op args

/-- `Assembler.assemble_store`. -/
def assemble_store (a : Assembler) (op : Option Op) (args : List String) :
    Except String Assembler :=
  load_store a op args

/-- The `getattr(self, 'assemble_' + parts[0], None)` dispatch: the class
defines exactly these fourteen handler methods. -/
def dispatch (name : String) :
    Option (Assembler → Option Op → List String → Except String Assembler) :=
  if name = "int" then some assemble_int
  else if name = "intc" then some assemble_intc
  else if name = "intcblock" then some assemble_intcblock
  else if name = "bytec" then some assemble_bytec
  else if name = "byte" then some assemble_byte
  else if name = "bytecblock" then some assemble_bytecblock
  else if name = "addr" then some assemble_addr
  else if name = "arg" then some assemble_arg
  else if name = "txn" then some assemble_txn
  else if name = "gtxn" then some assemble_gtxn
  else if name = "global" then some assemble_global
  else if name = "bnz" then some assemble_bnz
  else if name = "load" then some assemble_load
  else if name = "store" then some assemble_store
  else none

/-- Python `str.split()` with no separator: split on whitespace runs,
discarding empty pieces. -/
def splitWsGo : List Char → List Char → List (List Char)
  | cur, [] => if cur.isEmpty then [] else [cur.reverse]
  | cur, c :: rest =>
    if pyIsSpace c then
      if cur.isEmpty then splitWsGo [] rest
      else cur.reverse :: splitWsGo [] rest
    else splitWsGo (c :: cur) rest

/-- Tokenize a stripped line the way `line.split()` does. -/
def pySplitWs (cs : List Char) : List String :=
  (splitWsGo [] cs).map (fun t => String.mk t)

/-- The trailing-comment trim of `assembleLine`: take tokens up to the first
one starting with `//`; the truthiness test `if newparts:` means a comment in
the first position leaves the token list unchanged. -/
def stripLineComment (parts : List String) : List String :=
  let tw := parts.takeWhile (fun p => !(List.isPrefixOf ['/', '/'] p.data))
  if tw.isEmpty then parts else tw

/-- `Assembler.assembleLine`: skip blank and comment lines, tokenize,
dispatch to a handler when one exists, else emit a bare opcode from the
table, else treat `name:` as a label declaration, else fail. -/
def assembleLine (a : Assembler) (rawline : String) : Except String Assembler :=
  if rawline = "" then .ok a
  else if (pyStripChars rawline.data).isEmpty then .ok a
  else if List.isPrefixOf ['/', '/'] (pyStripChars rawline.data) then .ok a
  else
    match pySplitWs (pyStripChars rawline.data) with
    | [] => .error ("could not parse line " ++ pyRepr rawline)
    | p :: ps =>
      match stripLineComment (p :: ps) with
      | [] => .error ("could not parse line " ++ pyRepr rawline)
      | name :: rest =>
        match dispatch name with
        | some handler => handler a (a.opByName name) rest
        | none =>
          match a.opByName name with
          | some o =>
            if o.Opcode ≤ 0xff then .ok { a with out := a.out ++ [o.Opcode] }
            else .error "bytes must be in range(0, 256)"
          | none =>
            if name.data.getLast? = some ':' then
              setLabel a (String.mk name.data.dropLast)
            else .error ("unknown opcode " ++ pyRepr name)

/-- `Assembler.assembleLineSource`: a 1-based line counter is bumped before
each line is assembled; the first failure aborts the remaining lines, the way
a propagating Python exception does. -/
def assembleLineSource (a : Assembler) : List String → Except String Assembler
  | [] => .ok a
  | l :: ls => do
    let a' ← assembleLine { a with sourceLine := a.sourceLine + 1 } l
    assembleLineSource a' ls

/-- The body of the `resolveLabels` loop for a single recorded reference:
look the label up, require a forward in-range jump, and patch the two bytes
after the branch opcode with the big-endian 16-bit relative offset. -/
def resolveOne (labels : List (String × Nat)) (program : List Nat) :
    Nat × Nat × String → Except String (List Nat)
  | (sourceLine, pc, label) =>
    match lookupLabel labels label with
    | none =>
      .error (":" ++ toString sourceLine ++ " reference to undefined label " ++ pyRepr label)
    | some dest =>
      if dest < pc + 3 then
        .error (":" ++ toString sourceLine ++ " label " ++ pyRepr label ++
          " is before reference but only forward jumps are allowed")
      else
        if dest - (pc + 3) > 0x7fff then
          .error (":" ++ toString sourceLine ++ " label " ++ pyRepr label ++ " is too far away")
        else
          .ok ((program.set (pc + 1) ((dest - (pc + 3)) / 256)).set (pc + 2)
            ((dest - (pc + 3)) % 256))

/-- The reference-processing loop of `resolveLabels`, in recording order. -/
def resolveGo (labels : List (String × Nat)) :
    List (Nat × Nat × String) → List Nat → Except String (List Nat)
  | [], program => .ok program
  | r :: rs, program => do
    let program' ← resolveOne labels program r
    resolveGo labels rs program'

/-- `Assembler.resolveLabels`. -/
def resolveLabels (a : Assembler) : Except String (List Nat) :=
  if a.labelReferences.isEmpty then .ok a.out
  else resolveGo a.labels a.labelReferences a.out

/-- `Assembler.getBytes`: varuint version, then the int and byte constant
blocks when constants were interned but never block-emitted, then the
label-resolved instruction stream.  (The source also flips the written flags
here; that is observable only on a second call, which the program never
makes.) -/
def getBytes (a : Assembler) : Except String (List Nat) := do
  let intBlock ← if !a.intc.isEmpty && !a.intcWritten then write_intcblock a.intc else pure []
  let byteBlock := if !a.bytec.isEmpty && !a.bytecWritten then write_bytecblock a.bytec else []
  let body ← resolveLabels a
  .ok (to_varuint a.version ++ intBlock ++ byteBlock ++ body)

/-- Python `str.splitlines()` for newline-separated text: interior empty
lines are kept, a trailing newline contributes no extra empty line. -/
def splitNlGo : List Char → List Char → List (List Char)
  | cur, [] => [cur.reverse]
  | cur, '\n' :: rest => cur.reverse :: splitNlGo [] rest
  | cur, c :: rest => splitNlGo (c :: cur) rest

/-- `text.splitlines()` (sources in this repository use `\n` line ends). -/
def pySplitlines (s : String) : List String :=
  let segs := splitNlGo [] s.data
  let segs2 := match segs.getLast? with
    | some [] => segs.dropLast
    | _ => segs
  segs2.map (fun t => String.mk t)

/-- `AssembleString`: a fresh session (default constructor arguments), one
pass over the lines, then finalization. -/
def AssembleString (opByName : String → Option Op)
    (decodeAddress : String → Except String (List Nat)) (text : String) :
    Except String (List Nat) := do
  let a ← assembleLineSource (Assembler.init opByName decodeAddress "" 1) (pySplitlines text)
  getBytes a

/-- The data fields of a session — everything except the two external
collaborator functions — so that concrete runs can be compared decidably. -/
structure Obs where
  out : List Nat
  intc : List Int
  intcWritten : Bool
  bytec : List (List Nat)
  bytecWritten : Bool
  sourceName : String
  sourceLine : Nat
  labels : List (String × Nat)
  labelReferences : List (Nat × Nat × String)
  version : Nat
deriving DecidableEq

/-- Project a session onto its data fields. -/
def Assembler.obs (a : Assembler) : Obs :=
  ⟨a.out, a.intc, a.intcWritten, a.bytec, a.bytecWritten, a.sourceName, a.sourceLine,
   a.labels, a.labelReferences, a.version⟩

/-- An opcode table with no entries; usable wherever the consulted code path
ignores the table (every theorem that depends on table contents quantifies
over the table instead). -/
def emptySpec : String → Option Op := fun _ => none

/-- A stand-in for the external address decoder on paths that never call it. -/
def noAddr : String → Except String (List Nat) := fun _ =>
  .error "decode_address unavailable"

/-- Overwrite the two constructor-controlled fields that no line-assembly
step ever reads: `sourceName` is stored and never consulted, and `version` is
read only by `getBytes`. -/
def upd (n : String) (v : Nat) (a : Assembler) : Assembler :=
  { a with sourceName := n, version := v }

/-- A fresh default session over the empty opcode table, used by concrete
instances below. -/
def sessionA : Assembler := Assembler.init emptySpec noAddr "" 1

/-- The session state reached by assembling `int 5`, `int 5`, `int 7` in a
fresh default session. -/
def demoA : Assembler :=
  { sessionA with intc := [5, 7], out := [0x22, 0x22, 0x23], sourceLine := 3 }

/-- The session state reached by assembling the single line `int 5` in a
fresh default session. -/
def demoAfterInt5 : Assembler :=
  { sessionA with sourceLine := 1, intc := [5], out := [0x22] }

/-- A session whose int pool was set by an explicit one-value `intcblock`
(so the written flag is up), with the block bytes elided. -/
def demoBlocked : Assembler := { sessionA with intc := [5], intcWritten := true }

/-- The session fields that no line-assembly step ever writes. -/
def persist (a : Assembler) : Nat × String × Nat :=
  (a.sourceLine, a.sourceName, a.version)

/-- The reference bytes `write_intc` emits for an in-range index. -/
def intcRefBytes (k : Nat) : List Nat :=
  if k ≤ 3 then [0x22 + k] else [0x21, k]

/-- The reference bytes `write_bytec` emits for an in-range index. -/
def bytecRefBytes (k : Nat) : List Nat :=
  if k ≤ 3 then [0x28 + k] else [0x27, k]

theorem exbind_ok {α β : Type} (x : α) (f : α → Except String β) :
    (Except.ok x >>= f) = f x := rfl

theorem exbind_err {α β : Type} (e : String) (f : α → Except String β) :
    ((Except.error e : Except String α) >>= f) = .error e := rfl

theorem exmap_ok {α β : Type} (f : α → β) (x : α) :
    (Except.ok x : Except String α).map f = .ok (f x) := rfl

theorem exmap_err {α β : Type} (f : α → β) (e : String) :
    (Except.error e : Except String α).map f = .error e := rfl

theorem write_intc_persist (a : Assembler) (i : Int) (a' : Assembler)
    (h : write_intc a i = .ok a') : persist a' = persist a := by
  unfold write_intc at h
  split_ifs at h <;> cases h <;> rfl

theorem write_bytec_persist (a : Assembler) (i : Int) (a' : Assembler)
    (h : write_bytec a i = .ok a') : persist a' = persist a := by
  unfold write_bytec at h
  split_ifs at h <;> cases h <;> rfl

theorem assemble_int_persist (a : Assembler) (op : Option Op) (args : List String)
    (a' : Assembler) (h : assemble_int a op args = .ok a') : persist a' = persist a := by
  unfold assemble_int at h
  split at h
  · rename_i arg0
    cases hp : pyIntBase0 arg0 with
    | error e => rw [hp] at h; cases h
    | ok val =>
      rw [hp] at h
      simp only [exbind_ok] at h
      exact (write_intc_persist _ _ _ h).trans rfl
  · cases h

theorem assemble_intc_persist (a : Assembler) (op : Option Op) (args : List String)
    (a' : Assembler) (h : assemble_intc a op args = .ok a') : persist a' = persist a := by
  unfold assemble_intc at h
  split at h
  · rename_i arg0
    cases hp : pyIntBase0 arg0 with
    | error e => rw [hp] at h; cases h
    | ok val =>
      rw [hp] at h
      simp only [exbind_ok] at h
      exact write_intc_persist _ _ _ h
  · cases h

theorem assemble_intcblock_persist (a : Assembler) (op : Option Op) (args : List String)
    (a' : Assembler) (h : assemble_intcblock a op args = .ok a') : persist a' = persist a := by
  unfold assemble_intcblock at h
  cases hm : args.mapM pyIntBase0 with
  | error e => rw [hm] at h; cases h
  | ok intc =>
    rw [hm] at h
    simp only [exbind_ok] at h
    cases hb : write_intcblock intc with
    | error e => rw [hb] at h; cases h
    | ok blk => rw [hb] at h; simp only [exbind_ok] at h; cases h; rfl

theorem assemble_bytec_persist (a : Assembler) (op : Option Op) (args : List String)
    (a' : Assembler) (h : assemble_bytec a op args = .ok a') : persist a' = persist a := by
  unfold assemble_bytec at h
  split at h
  · rename_i arg0
    cases hp : pyIntBase10 arg0 with
    | error e => rw [hp] at h; cases h
    | ok val =>
      rw [hp] at h
      simp only [exbind_ok] at h
      exact write_bytec_persist _ _ _ h
  · cases h

theorem bytestring_persist (a : Assembler) (val : List Nat) (a' : Assembler)
    (h : bytestring a val = .ok a') : persist a' = persist a := by
  unfold bytestring at h
  exact (write_bytec_persist _ _ _ h).trans rfl

theorem assemble_addr_persist (a : Assembler) (op : Option Op) (args : List String)
    (a' : Assembler) (h : assemble_addr a op args = .ok a') : persist a' = persist a := by
  unfold assemble_addr at h
  split at h
  · rename_i arg0
    cases hp : a.decodeAddress arg0 with
    | error e => rw [hp] at h; cases h
    | ok addr =>
      rw [hp] at h
      simp only [exbind_ok] at h
      exact bytestring_persist _ _ _ h
  · cases h

theorem assemble_byte_persist (a : Assembler) (op : Option Op) (args : List String)
    (a' : Assembler) (h : assemble_byte a op args = .ok a') : persist a' = persist a := by
  unfold assemble_byte at h
  split_ifs at h
  cases hp : parseByteConstant args with
  | error e => rw [hp] at h; cases h
  | ok vp =>
    rw [hp] at h
    simp only [exbind_ok] at h
    exact bytestring_persist _ _ _ h

theorem assemble_bytecblock_persist (a : Assembler) (op : Option Op) (args : List String)
    (a' : Assembler) (h : assemble_bytecblock a op args = .ok a') : persist a' = persist a := by
  unfold assemble_bytecblock at h
  cases hm : parseByteConstantsGo args.length args with
  | error e => rw [hm] at h; cases h
  | ok bytec => rw [hm] at h; simp only [exbind_ok] at h; cases h; rfl

theorem assemble_arg_persist (a : Assembler) (op : Option Op) (args : List String)
    (a' : Assembler) (h : assemble_arg a op args = .ok a') : persist a' = persist a := by
  unfold assemble_arg at h
  split at h
  · rename_i arg0
    cases hp : pyIntBase10 arg0 with
    | error e => rw [hp] at h; cases h
    | ok ci =>
      rw [hp] at h
      simp only [exbind_ok] at h
      split_ifs at h <;> cases h <;> rfl
  · split at h <;> cases h

theorem assemble_txn_persist (a : Assembler) (op : Option Op) (args : List String)
    (a' : Assembler) (h : assemble_txn a op args = .ok a') : persist a' = persist a := by
  unfold assemble_txn at h
  split at h
  · cases h
  · split at h
    · split at h
      · split_ifs at h <;> cases h <;> rfl
      · cases h
    · cases h

theorem assemble_gtxn_persist (a : Assembler) (op : Option Op) (args : List String)
    (a' : Assembler) (h : assemble_gtxn a op args = .ok a') : persist a' = persist a := by
  unfold assemble_gtxn at h
  split at h
  · cases h
  · split at h
    · rename_i o arg0 arg1
      cases hp : pyIntBase10 arg0 with
      | error e => rw [hp] at h; cases h
      | ok gtid =>
        rw [hp] at h
        simp only [exbind_ok] at h
        split at h
        · split_ifs at h <;> cases h <;> rfl
        · cases h
    · cases h

theorem assemble_global_persist (a : Assembler) (op : Option Op) (args : List String)
    (a' : Assembler) (h : assemble_global a op args = .ok a') : persist a' = persist a := by
  unfold assemble_global at h
  split at h
  · cases h
  · split at h
    · split at h
      · split_ifs at h <;> cases h <;> rfl
      · cases h
    · cases h

theorem assemble_bnz_persist (a : Assembler) (op : Option Op) (args : List String)
    (a' : Assembler) (h : assemble_bnz a op args = .ok a') : persist a' = persist a := by
  unfold assemble_bnz at h
  split at h
  · cases h
  · cases h; rfl

theorem load_store_persist (a : Assembler) (op : Option Op) (args : List String)
    (a' : Assembler) (h : load_store a op args = .ok a') : persist a' = persist a := by
  unfold load_store at h
  split at h
  · rename_i arg0
    cases hp : pyIntBase10 arg0 with
    | error e => rw [hp] at h; cases h
    | ok arg =>
      rw [hp] at h
      simp only [exbind_ok] at h
      split at h
      · cases h
      · split_ifs at h <;> cases h <;> rfl
  · split at h <;> cases h

theorem setLabel_persist (a : Assembler) (label : String) (a' : Assembler)
    (h : setLabel a label = .ok a') : persist a' = persist a := by
  unfold setLabel at h
  split_ifs at h <;> cases h <;> rfl

set_option maxHeartbeats 1000000 in
theorem dispatch_persist (name : String)
    (handler : Assembler → Option Op → List String → Except String Assembler)
    (heq : dispatch name = some handler) (a : Assembler) (op : Option Op)
    (args : List String) (a' : Assembler) (h : handler a op args = .ok a') :
    persist a' = persist a := by
  unfold dispatch at heq
  by_cases e1 : name = "int"
  · rw [if_pos e1] at heq; cases heq; exact assemble_int_persist _ _ _ _ h
  rw [if_neg e1] at heq
  by_cases e2 : name = "intc"
  · rw [if_pos e2] at heq; cases heq; exact assemble_intc_persist _ _ _ _ h
  rw [if_neg e2] at heq
  by_cases e3 : name = "intcblock"
  · rw [if_pos e3] at heq; cases heq; exact assemble_intcblock_persist _ _ _ _ h
  rw [if_neg e3] at heq
  by_cases e4 : name = "bytec"
  · rw [if_pos e4] at heq; cases heq; exact assemble_bytec_persist _ _ _ _ h
  rw [if_neg e4] at heq
  by_cases e5 : name = "byte"
  · rw [if_pos e5] at heq; cases heq; exact assemble_byte_persist _ _ _ _ h
  rw [if_neg e5] at heq
  by_cases e6 : name = "bytecblock"
  · rw [if_pos e6] at heq; cases heq; exact assemble_bytecblock_persist _ _ _ _ h
  rw [if_neg e6] at heq
  by_cases e7 : name = "addr"
  · rw [if_pos e7] at heq; cases heq; exact assemble_addr_persist _ _ _ _ h
  rw [if_neg e7] at heq
  by_cases e8 : name = "arg"
  · rw [if_pos e8] at heq; cases heq; exact assemble_arg_persist _ _ _ _ h
  rw [if_neg e8] at heq
  by_cases e9 : name = "txn"
  · rw [if_pos e9] at heq; cases heq; exact assemble_txn_persist _ _ _ _ h
  rw [if_neg e9] at heq
  by_cases e10 : name = "gtxn"
  · rw [if_pos e10] at heq; cases heq; exact assemble_gtxn_persist _ _ _ _ h
  rw [if_neg e10] at heq
  by_cases e11 : name = "global"
  · rw [if_pos e11] at heq; cases heq; exact assemble_global_persist _ _ _ _ h
  rw [if_neg e11] at heq
  by_cases e12 : name = "bnz"
  · rw [if_pos e12] at heq; cases heq; exact assemble_bnz_persist _ _ _ _ h
  rw [if_neg e12] at heq
  by_cases e13 : name = "load"
  · rw [if_pos e13] at heq; cases heq; exact load_store_persist _ _ _ _ h
  rw [if_neg e13] at heq
  by_cases e14 : name = "store"
  · rw [if_pos e14] at heq; cases heq; exact load_store_persist _ _ _ _ h
  rw [if_neg e14] at heq
  cases heq

theorem assembleLine_persist (a : Assembler) (l : String) (a' : Assembler)
    (h : assembleLine a l = .ok a') : persist a' = persist a := by
  unfold assembleLine at h
  by_cases h1 : l = ""
  · rw [if_pos h1] at h; cases h; rfl
  · rw [if_neg h1] at h
    by_cases h2 : (pyStripChars l.data).isEmpty = true
    · rw [if_pos h2] at h; cases h; rfl
    · rw [if_neg h2] at h
      by_cases h3 : List.isPrefixOf ['/', '/'] (pyStripChars l.data) = true
      · rw [if_pos h3] at h; cases h; rfl
      · rw [if_neg h3] at h
        split at h
        · cases h
        · split at h
          · cases h
          · split at h
            · rename_i handler heq
              exact dispatch_persist _ _ heq _ _ _ _ h
            · split at h
              · split_ifs at h
                cases h; rfl
              · split_ifs at h
                exact setLabel_persist _ _ _ h

theorem write_intc_upd (n : String) (v : Nat) (a : Assembler) (i : Int) :
    write_intc (upd n v a) i = (write_intc a i).map (upd n v) := by
  unfold write_intc upd
  split_ifs <;> rfl

theorem write_bytec_upd (n : String) (v : Nat) (a : Assembler) (i : Int) :
    write_bytec (upd n v a) i = (write_bytec a i).map (upd n v) := by
  unfold write_bytec upd
  split_ifs <;> rfl

theorem assemble_int_upd (n : String) (v : Nat) (a : Assembler) (op : Option Op)
    (args : List String) :
    assemble_int (upd n v a) op args = (assemble_int a op args).map (upd n v) := by
  rcases args with _ | ⟨arg0, _ | ⟨arg1, rest⟩⟩
  · rfl
  · simp only [assemble_int]
    cases hp : pyIntBase0 arg0 with
    | error e => simp only [hp, exbind_err, exmap_err]
    | ok val =>
      simp only [hp, exbind_ok]
      exact write_intc_upd n v { a with intc := (internConst a.intc val).2 } _
  · rfl

theorem assemble_intc_upd (n : String) (v : Nat) (a : Assembler) (op : Option Op)
    (args : List String) :
    assemble_intc (upd n v a) op args = (assemble_intc a op args).map (upd n v) := by
  rcases args with _ | ⟨arg0, _ | ⟨arg1, rest⟩⟩
  · rfl
  · simp only [assemble_intc]
    cases hp : pyIntBase0 arg0 with
    | error e => simp only [hp, exbind_err, exmap_err]
    | ok val =>
      simp only [hp, exbind_ok]
      exact write_intc_upd n v a _
  · rfl

theorem assemble_intcblock_upd (n : String) (v : Nat) (a : Assembler) (op : Option Op)
    (args : List String) :
    assemble_intcblock (upd n v a) op args = (assemble_intcblock a op args).map (upd n v) := by
  simp only [assemble_intcblock]
  cases hm : args.mapM pyIntBase0 with
  | error e => simp only [hm, exbind_err, exmap_err]
  | ok intc =>
    simp only [hm, exbind_ok]
    cases hb : write_intcblock intc with
    | error e => simp only [hb, exbind_err, exmap_err]
    | ok blk => simp only [hb, exbind_ok]; rfl

theorem assemble_bytec_upd (n : String) (v : Nat) (a : Assembler) (op : Option Op)
    (args : List String) :
    assemble_bytec (upd n v a) op args = (assemble_bytec a op args).map (upd n v) := by
  rcases args with _ | ⟨arg0, _ | ⟨arg1, rest⟩⟩
  · rfl
  · simp only [assemble_bytec]
    cases hp : pyIntBase10 arg0 with
    | error e => simp only [hp, exbind_err, exmap_err]
    | ok val =>
      simp only [hp, exbind_ok]
      exact write_bytec_upd n v a _
  · rfl

theorem bytestring_upd (n : String) (v : Nat) (a : Assembler) (val : List Nat) :
    bytestring (upd n v a) val = (bytestring a val).map (upd n v) := by
  unfold bytestring
  exact write_bytec_upd n v { a with bytec := (internConst a.bytec val).2 } _

theorem assemble_addr_upd (n : String) (v : Nat) (a : Assembler) (op : Option Op)
    (args : List String) :
    assemble_addr (upd n v a) op args = (assemble_addr a op args).map (upd n v) := by
  rcases args with _ | ⟨arg0, _ | ⟨arg1, rest⟩⟩
  · rfl
  · simp only [assemble_addr, upd]
    cases hd : a.decodeAddress arg0 with
    | error e => simp only [hd, exbind_err, exmap_err]
    | ok addr =>
      simp only [hd, exbind_ok]
      exact bytestring_upd n v a addr
  · rfl

theorem assemble_byte_upd (n : String) (v : Nat) (a : Assembler) (op : Option Op)
    (args : List String) :
    assemble_byte (upd n v a) op args = (assemble_byte a op args).map (upd n v) := by
  simp only [assemble_byte]
  split_ifs
  · rfl
  · cases hp : parseByteConstant args with
    | error e => simp only [hp, exbind_err, exmap_err]
    | ok vp =>
      simp only [hp, exbind_ok]
      exact bytestring_upd n v a vp.1

theorem assemble_bytecblock_upd (n : String) (v : Nat) (a : Assembler) (op : Option Op)
    (args : List String) :
    assemble_bytecblock (upd n v a) op args = (assemble_bytecblock a op args).map (upd n v) := by
  simp only [assemble_bytecblock]
  cases hm : parseByteConstantsGo args.length args with
  | error e => simp only [hm, exbind_err, exmap_err]
  | ok bytec => simp only [hm, exbind_ok]; rfl

theorem assemble_arg_upd (n : String) (v : Nat) (a : Assembler) (op : Option Op)
    (args : List String) :
    assemble_arg (upd n v a) op args = (assemble_arg a op args).map (upd n v) := by
  rcases args with _ | ⟨arg0, _ | ⟨arg1, rest⟩⟩
  · cases op <;> rfl
  · simp only [assemble_arg]
    cases hp : pyIntBase10 arg0 with
    | error e => simp only [hp, exbind_err, exmap_err]
    | ok ci => simp only [hp, exbind_ok]; split_ifs <;> rfl
  · cases op <;> rfl

theorem assemble_txn_upd (n : String) (v : Nat) (a : Assembler) (op : Option Op)
    (args : List String) :
    assemble_txn (upd n v a) op args = (assemble_txn a op args).map (upd n v) := by
  cases op with
  | none => rfl
  | some o =>
    rcases args with _ | ⟨arg0, _ | ⟨arg1, rest⟩⟩
    · rfl
    · simp only [assemble_txn]
      cases he : scanIndex o.ArgEnum arg0 with
      | none => simp only [he, exmap_err]
      | some i => simp only [he]; split_ifs <;> rfl
    · rfl

theorem assemble_gtxn_upd (n : String) (v : Nat) (a : Assembler) (op : Option Op)
    (args : List String) :
    assemble_gtxn (upd n v a) op args = (assemble_gtxn a op args).map (upd n v) := by
  cases op with
  | none => rfl
  | some o =>
    rcases args with _ | ⟨arg0, _ | ⟨arg1, _ | ⟨arg2, rest⟩⟩⟩
    · rfl
    · rfl
    · simp only [assemble_gtxn]
      cases hp : pyIntBase10 arg0 with
      | error e => simp only [hp, exbind_err, exmap_err]
      | ok gtid =>
        simp only [hp, exbind_ok]
        cases he : scanIndex o.ArgEnum arg1 with
        | none => simp only [he, exmap_err]
        | some i => simp only [he]; split_ifs <;> rfl
    · rfl

theorem assemble_global_upd (n : String) (v : Nat) (a : Assembler) (op : Option Op)
    (args : List String) :
    assemble_global (upd n v a) op args = (assemble_global a op args).map (upd n v) := by
  cases op with
  | none => rfl
  | some o =>
    rcases args with _ | ⟨arg0, _ | ⟨arg1, rest⟩⟩
    · rfl
    · simp only [assemble_global]
      cases he : scanIndex o.ArgEnum arg0 with
      | none => simp only [he, exmap_err]
      | some i => simp only [he]; split_ifs <;> rfl
    · rfl

theorem assemble_bnz_upd (n : String) (v : Nat) (a : Assembler) (op : Option Op)
    (args : List String) :
    assemble_bnz (upd n v a) op args = (assemble_bnz a op args).map (upd n v) := by
  rcases args with _ | ⟨label, rest⟩ <;> rfl

theorem load_store_upd (n : String) (v : Nat) (a : Assembler) (op : Option Op)
    (args : List String) :
    load_store (upd n v a) op args = (load_store a op args).map (upd n v) := by
  rcases args with _ | ⟨arg0, _ | ⟨arg1, rest⟩⟩
  · cases op <;> rfl
  · simp only [load_store]
    cases hp : pyIntBase10 arg0 with
    | error e => simp only [hp, exbind_err, exmap_err]
    | ok arg =>
      simp only [hp, exbind_ok]
      cases op with
      | none => rfl
      | some o => dsimp only; split_ifs <;> rfl
  · cases op <;> rfl

theorem setLabel_upd (n : String) (v : Nat) (a : Assembler) (label : String) :
    setLabel (upd n v a) label = (setLabel a label).map (upd n v) := by
  unfold setLabel upd
  split_ifs <;> rfl

set_option maxHeartbeats 1000000 in
theorem dispatch_upd (name : String)
    (handler : Assembler → Option Op → List String → Except String Assembler)
    (heq : dispatch name = some handler) (n : String) (v : Nat) (a : Assembler)
    (op : Option Op) (args : List String) :
    handler (upd n v a) op args = (handler a op args).map (upd n v) := by
  unfold dispatch at heq
  by_cases e1 : name = "int"
  · rw [if_pos e1] at heq; cases heq; exact assemble_int_upd n v a op args
  rw [if_neg e1] at heq
  by_cases e2 : name = "intc"
  · rw [if_pos e2] at heq; cases heq; exact assemble_intc_upd n v a op args
  rw [if_neg e2] at heq
  by_cases e3 : name = "intcblock"
  · rw [if_pos e3] at heq; cases heq; exact assemble_intcblock_upd n v a op args
  rw [if_neg e3] at heq
  by_cases e4 : name = "bytec"
  · rw [if_pos e4] at heq; cases heq; exact assemble_bytec_upd n v a op args
  rw [if_neg e4] at heq
  by_cases e5 : name = "byte"
  · rw [if_pos e5] at heq; cases heq; exact assemble_byte_upd n v a op args
  rw [if_neg e5] at heq
  by_cases e6 : name = "bytecblock"
  · rw [if_pos e6] at heq; cases heq; exact assemble_bytecblock_upd n v a op args
  rw [if_neg e6] at heq
  by_cases e7 : name = "addr"
  · rw [if_pos e7] at heq; cases heq; exact assemble_addr_upd n v a op args
  rw [if_neg e7] at heq
  by_cases e8 : name = "arg"
  · rw [if_pos e8] at heq; cases heq; exact assemble_arg_upd n v a op args
  rw [if_neg e8] at heq
  by_cases e9 : name = "txn"
  · rw [if_pos e9] at heq; cases heq; exact assemble_txn_upd n v a op args
  rw [if_neg e9] at heq
  by_cases e10 : name = "gtxn"
  · rw [if_pos e10] at heq; cases heq; exact assemble_gtxn_upd n v a op args
  rw [if_neg e10] at heq
  by_cases e11 : name = "global"
  · rw [if_pos e11] at heq; cases heq; exact assemble_global_upd n v a op args
  rw [if_neg e11] at heq
  by_cases e12 : name = "bnz"
  · rw [if_pos e12] at heq; cases heq; exact assemble_bnz_upd n v a op args
  rw [if_neg e12] at heq
  by_cases e13 : name = "load"
  · rw [if_pos e13] at heq; cases heq; exact load_store_upd n v a op args
  rw [if_neg e13] at heq
  by_cases e14 : name = "store"
  · rw [if_pos e14] at heq; cases heq; exact load_store_upd n v a op args
  rw [if_neg e14] at heq
  cases heq

theorem assembleLine_upd (n : String) (v : Nat) (a : Assembler) (l : String) :
    assembleLine (upd n v a) l = (assembleLine a l).map (upd n v) := by
  unfold assembleLine
  by_cases h1 : l = ""
  · rw [if_pos h1, if_pos h1]; rfl
  rw [if_neg h1, if_neg h1]
  by_cases h2 : (pyStripChars l.data).isEmpty = true
  · rw [if_pos h2, if_pos h2]; rfl
  rw [if_neg h2, if_neg h2]
  by_cases h3 : List.isPrefixOf ['/', '/'] (pyStripChars l.data) = true
  · rw [if_pos h3, if_pos h3]; rfl
  rw [if_neg h3, if_neg h3]
  cases hsp : pySplitWs (pyStripChars l.data) with
  | nil => simp only [hsp, exmap_err]
  | cons p ps =>
    simp only [hsp]
    cases hsc : stripLineComment (p :: ps) with
    | nil => simp only [hsc, exmap_err]
    | cons name rest =>
      simp only [hsc]
      cases hd : dispatch name with
      | some handler =>
        simp only [hd, upd]
        exact dispatch_upd name handler hd n v a (a.opByName name) rest
      | none =>
        simp only [hd, upd]
        cases ho : a.opByName name with
        | some o => simp only [ho]; split_ifs <;> rfl
        | none =>
          simp only [ho]
          split_ifs with hcolon
          · exact setLabel_upd n v a _
          · rfl

theorem assembleLineSource_upd (n : String) (v : Nat) (lines : List String) (a : Assembler) :
    assembleLineSource (upd n v a) lines = (assembleLineSource a lines).map (upd n v) := by
  induction lines generalizing a with
  | nil => rfl
  | cons l ls ih =>
    simp only [assembleLineSource]
    have h1 : assembleLine { upd n v a with sourceLine := (upd n v a).sourceLine + 1 } l
        = (assembleLine { a with sourceLine := a.sourceLine + 1 } l).map (upd n v) :=
      assembleLine_upd n v { a with sourceLine := a.sourceLine + 1 } l
    rw [h1]
    cases hres : assembleLine { a with sourceLine := a.sourceLine + 1 } l with
    | error e => simp only [exmap_err, exbind_err]
    | ok a1 => simp only [exmap_ok, exbind_ok]; exact ih a1

theorem expure (x : List Nat) : (pure x : Except String (List Nat)) = .ok x := rfl

theorem assembleLineSource_append (l1 l2 : List String) (a : Assembler) :
    assembleLineSource a (l1 ++ l2)
      = assembleLineSource a l1 >>= fun b => assembleLineSource b l2 := by
  induction l1 generalizing a with
  | nil => rfl
  | cons l ls ih =>
    simp only [List.cons_append, assembleLineSource]
    cases hl : assembleLine { a with sourceLine := a.sourceLine + 1 } l with
    | error e => simp only [exbind_err]
    | ok a1 => simp only [exbind_ok]; exact ih a1

theorem assembleLineSource_counter (lines : List String) (a b : Assembler)
    (h : assembleLineSource a lines = .ok b) :
    b.sourceLine = a.sourceLine + lines.length ∧ b.sourceName = a.sourceName
      ∧ b.version = a.version := by
  induction lines generalizing a with
  | nil => cases h; exact ⟨rfl, rfl, rfl⟩
  | cons l ls ih =>
    simp only [assembleLineSource] at h
    cases hl : assembleLine { a with sourceLine := a.sourceLine + 1 } l with
    | error e => rw [hl] at h; cases h
    | ok a1 =>
      rw [hl] at h
      simp only [exbind_ok] at h
      have hp := assembleLine_persist _ _ _ hl
      have h1 : a1.sourceLine = a.sourceLine + 1 := congrArg Prod.fst hp
      have h2 : a1.sourceName = a.sourceName := congrArg (fun t => t.2.1) hp
      have h3 : a1.version = a.version := congrArg (fun t => t.2.2) hp
      obtain ⟨i1, i2, i3⟩ := ih a1 h
      refine ⟨?_, i2.trans h2, i3.trans h3⟩
      simp only [List.length_cons]
      omega

theorem mapM_ok_of_all {α β : Type} (f : α → Except String β) (g : α → β) (l : List α)
    (h : ∀ x ∈ l, f x = .ok (g x)) : l.mapM f = .ok (l.map g) := by
  induction l with
  | nil => rfl
  | cons x xs ih =>
    rw [List.mapM_cons, h x (List.mem_cons_self x xs)]
    simp only [exbind_ok]
    rw [ih (fun y hy => h y (List.mem_cons_of_mem x hy))]
    rfl

theorem write_intcblock_nonneg (l : List Int) (h : ∀ x ∈ l, (0 : Int) ≤ x) :
    write_intcblock l
      = .ok (0x20 :: (to_varuint l.length ++ (l.map (fun v => to_varuint v.toNat)).flatten)) := by
  unfold write_intcblock
  rw [mapM_ok_of_all _ (fun v => to_varuint v.toNat) l
    (fun x hx => by rw [if_neg (by have := h x hx; omega)])]
  rfl

/-- The bytes `getBytes` produces, with the int block spelled out, whenever
every interned integer is non-negative (`to_varuint` is partial on negative
values; see `write_intcblock`). -/
theorem getBytes_eq (a : Assembler) (h : ∀ x ∈ a.intc, (0 : Int) ≤ x) :
    getBytes a = (resolveLabels a).map (fun body =>
      to_varuint a.version ++
      (if !a.intc.isEmpty && !a.intcWritten then
        0x20 :: (to_varuint a.intc.length ++ (a.intc.map (fun v => to_varuint v.toNat)).flatten)
      else []) ++
      (if !a.bytec.isEmpty && !a.bytecWritten then write_bytecblock a.bytec else []) ++ body) := by
  unfold getBytes
  by_cases hc : (!a.intc.isEmpty && !a.intcWritten) = true
  · rw [if_pos hc, if_pos hc, write_intcblock_nonneg a.intc h]
    simp only [exbind_ok]
    cases hr : resolveLabels a with
    | error e => simp only [exbind_err, exmap_err]
    | ok body => simp only [exbind_ok, exmap_ok]
  · rw [if_neg hc, if_neg hc, expure]
    simp only [exbind_ok]
    cases hr : resolveLabels a with
    | error e => simp only [exbind_err, exmap_err]
    | ok body => simp only [exbind_ok, exmap_ok]

theorem getBytes_ok_split (a : Assembler) (bs : List Nat) (h : getBytes a = .ok bs) :
    ∃ rest, bs = to_varuint a.version ++ rest := by
  unfold getBytes at h
  by_cases hc : (!a.intc.isEmpty && !a.intcWritten) = true
  · rw [if_pos hc] at h
    cases hib : write_intcblock a.intc with
    | error e =>
      rw [hib] at h
      simp only [exbind_err] at h
      exact Except.noConfusion h
    | ok ib =>
      rw [hib] at h
      simp only [exbind_ok] at h
      cases hr : resolveLabels a with
      | error e =>
        rw [hr] at h
        simp only [exbind_err] at h
        exact Except.noConfusion h
      | ok body =>
        rw [hr] at h
        simp only [exbind_ok] at h
        cases h
        refine ⟨ib ++ ((if !a.bytec.isEmpty && !a.bytecWritten then write_bytecblock a.bytec
          else []) ++ body), ?_⟩
        simp only [List.append_assoc]
  · rw [if_neg hc] at h
    rw [expure] at h
    simp only [exbind_ok] at h
    cases hr : resolveLabels a with
    | error e =>
      rw [hr] at h
      simp only [exbind_err] at h
      exact Except.noConfusion h
    | ok body =>
      rw [hr] at h
      simp only [exbind_ok] at h
      cases h
      refine ⟨[] ++ ((if !a.bytec.isEmpty && !a.bytecWritten then write_bytecblock a.bytec
        else []) ++ body), ?_⟩
      simp only [List.append_assoc]

theorem write_intc_fast (a : Assembler) (i : Int) (h0 : 0 ≤ i) (h3 : i ≤ 3) :
    write_intc a i = .ok { a with out := a.out ++ [0x22 + i.toNat] } := by
  unfold write_intc
  interval_cases i <;> rfl

theorem write_intc_generic (a : Assembler) (i : Int) (h4 : 4 ≤ i) (h255 : i ≤ 255) :
    write_intc a i = .ok { a with out := a.out ++ [0x21, i.toNat] } := by
  unfold write_intc
  rw [if_neg (by omega), if_neg (by omega), if_neg (by omega), if_neg (by omega),
    if_neg (by omega), if_neg (by omega)]

theorem write_intc_big (a : Assembler) (i : Int) (h : 255 < i) :
    write_intc a i = .error "cannot have more than 256 int constants" := by
  unfold write_intc
  rw [if_neg (by omega), if_neg (by omega), if_neg (by omega), if_neg (by omega),
    if_pos (by omega)]

theorem write_intc_neg (a : Assembler) (i : Int) (h : i < 0) :
    write_intc a i = .error "invalid negative intc const index" := by
  unfold write_intc
  rw [if_neg (by omega), if_neg (by omega), if_neg (by omega), if_neg (by omega),
    if_neg (by omega), if_pos (by omega)]

theorem write_intc_le (a : Assembler) (i : Int) (h0 : 0 ≤ i) (h255 : i ≤ 255) :
    write_intc a i = .ok { a with out := a.out ++ intcRefBytes i.toNat } := by
  by_cases h3 : i ≤ 3
  · rw [write_intc_fast a i h0 h3]
    unfold intcRefBytes
    rw [if_pos (by omega)]
  · rw [write_intc_generic a i (by omega) h255]
    unfold intcRefBytes
    rw [if_neg (by omega)]

theorem write_bytec_fast (a : Assembler) (i : Int) (h0 : 0 ≤ i) (h3 : i ≤ 3) :
    write_bytec a i = .ok { a with out := a.out ++ [0x28 + i.toNat] } := by
  unfold write_bytec
  interval_cases i <;> rfl

theorem write_bytec_generic (a : Assembler) (i : Int) (h4 : 4 ≤ i) (h255 : i ≤ 255) :
    write_bytec a i = .ok { a with out := a.out ++ [0x27, i.toNat] } := by
  unfold write_bytec
  rw [if_neg (by omega), if_neg (by omega), if_neg (by omega), if_neg (by omega),
    if_neg (by omega), if_neg (by omega)]

theorem write_bytec_big (a : Assembler) (i : Int) (h : 255 < i) :
    write_bytec a i = .error "cannot have more than 256 byte constants" := by
  unfold write_bytec
  rw [if_neg (by omega), if_neg (by omega), if_neg (by omega), if_neg (by omega),
    if_pos (by omega)]

theorem write_bytec_neg (a : Assembler) (i : Int) (h : i < 0) :
    write_bytec a i = .error "invalid negative bytec const index" := by
  unfold write_bytec
  rw [if_neg (by omega), if_neg (by omega), if_neg (by omega), if_neg (by omega),
    if_neg (by omega), if_pos (by omega)]

theorem scanIndex_none_iff {α : Type} [DecidableEq α] (p : List α) (v : α) :
    scanIndex p v = none ↔ v ∉ p := by
  induction p with
  | nil => simp [scanIndex]
  | cons x xs ih =>
    simp only [scanIndex]
    by_cases hx : x = v
    · simp [hx]
    · rw [if_neg hx]
      simp only [Option.map_eq_none', ih, List.mem_cons]
      constructor
      · intro hnot hor
        rcases hor with he | hm
        · exact hx he.symm
        · exact hnot hm
      · intro hnot hm
        exact hnot (Or.inr hm)

theorem scanIndex_append_self {α : Type} [DecidableEq α] (p : List α) (v : α)
    (h : v ∉ p) : scanIndex (p ++ [v]) v = some p.length := by
  induction p with
  | nil => simp [scanIndex]
  | cons x xs ih =>
    have hx : x ≠ v := fun e => h (e ▸ List.mem_cons_self x xs)
    simp only [List.cons_append, scanIndex, if_neg hx, List.append_eq]
    rw [ih (fun hm => h (List.mem_cons_of_mem x hm))]
    rfl

theorem internConst_twice {α : Type} [DecidableEq α] (p : List α) (v : α) :
    internConst (internConst p v).2 v = internConst p v := by
  unfold internConst
  cases hs : scanIndex p v with
  | some i => simp [hs]
  | none =>
    simp only [hs]
    rw [scanIndex_append_self p v ((scanIndex_none_iff p v).mp hs)]

theorem internConst_nodup {α : Type} [DecidableEq α] (p : List α) (v : α)
    (h : p.Nodup) : (internConst p v).2.Nodup := by
  unfold internConst
  cases hs : scanIndex p v with
  | some i => simpa using h
  | none =>
    have hv : v ∉ p := (scanIndex_none_iff p v).mp hs
    simp [List.nodup_append, h, hv]

/-- C1: of the thirteen byte-constant spellings of the six bytes `abcdef`
exercised by the repository's own test data, the hex form, both padded
base-32 forms (separate-token and parenthesized, under both aliases) and all
four base-64 forms assemble to the binary `0126010661626364656628`; but the
four UNPADDED base-32 forms — which the test requires to produce the same
binary — fail instead, because `parseByteConstant` calls `base64.b32decode`,
which demands `=`-padded input.  This holds for every opcode table and
address decoder, since the `byte` handler consults neither. -/
theorem C1_byte_constant_variants (spec : String → Option Op)
    (dec : String → Except String (List Nat)) :
    (AssembleString spec dec "byte 0x616263646566"
        = .ok [0x01, 0x26, 0x01, 0x06, 0x61, 0x62, 0x63, 0x64, 0x65, 0x66, 0x28])
    ∧ (AssembleString spec dec "byte b32 MFRGGZDFMY======"
        = .ok [0x01, 0x26, 0x01, 0x06, 0x61, 0x62, 0x63, 0x64, 0x65, 0x66, 0x28])
    ∧ (AssembleString spec dec "byte base32 MFRGGZDFMY======"
        = .ok [0x01, 0x26, 0x01, 0x06, 0x61, 0x62, 0x63, 0x64, 0x65, 0x66, 0x28])
    ∧ (AssembleString spec dec "byte base32(MFRGGZDFMY======)"
        = .ok [0x01, 0x26, 0x01, 0x06, 0x61, 0x62, 0x63, 0x64, 0x65, 0x66, 0x28])
    ∧ (AssembleString spec dec "byte b32(MFRGGZDFMY======)"
        = .ok [0x01, 0x26, 0x01, 0x06, 0x61, 0x62, 0x63, 0x64, 0x65, 0x66, 0x28])
    ∧ (AssembleString spec dec "byte b64 YWJjZGVm"
        = .ok [0x01, 0x26, 0x01, 0x06, 0x61, 0x62, 0x63, 0x64, 0x65, 0x66, 0x28])
    ∧ (AssembleString spec dec "byte base64 YWJjZGVm"
        = .ok [0x01, 0x26, 0x01, 0x06, 0x61, 0x62, 0x63, 0x64, 0x65, 0x66, 0x28])
    ∧ (AssembleString spec dec "byte b64(YWJjZGVm)"
        = .ok [0x01, 0x26, 0x01, 0x06, 0x61, 0x62, 0x63, 0x64, 0x65, 0x66, 0x28])
    ∧ (AssembleString spec dec "byte base64(YWJjZGVm)"
        = .ok [0x01, 0x26, 0x01, 0x06, 0x61, 0x62, 0x63, 0x64, 0x65, 0x66, 0x28])
    ∧ (AssembleString spec dec "byte b32 MFRGGZDFMY" = .error "Incorrect padding")
    ∧ (AssembleString spec dec "byte base32 MFRGGZDFMY" = .error "Incorrect padding")
    ∧ (AssembleString spec dec "byte base32(MFRGGZDFMY)" = .error "Incorrect padding")
    ∧ (AssembleString spec dec "byte b32(MFRGGZDFMY)" = .error "Incorrect padding") :=
  ⟨rfl, rfl, rfl, rfl, rfl, rfl, rfl, rfl, rfl, rfl, rfl, rfl, rfl⟩

/-- C2: assembling `int 5`, `int 5`, `int 7` interns exactly the two pool
entries 5 then 7 and emits the fast references `22 22 23` (the second
`int 5` reusing index 0), so the finalized binary is
`01 20 02 05 07 22 22 23`; and in general `getBytes` produces the varuint
version, the int block (exactly when int constants exist and were never
block-emitted), the byte block (same condition), then the label-resolved
instruction stream. -/
theorem C2_int_interning_and_finalize :
    (∀ (spec : String → Option Op) (dec : String → Except String (List Nat)),
      (assembleLineSource (Assembler.init spec dec "" 1) ["int 5", "int 5", "int 7"]).map
        (fun a => (a.intc, a.out)) = .ok ([5, 7], [0x22, 0x22, 0x23])
      ∧ AssembleString spec dec "int 5\nint 5\nint 7\n"
          = .ok [0x01, 0x20, 0x02, 0x05, 0x07, 0x22, 0x22, 0x23])
    ∧ (∀ a : Assembler, (∀ x ∈ a.intc, (0 : Int) ≤ x) →
      getBytes a = (resolveLabels a).map (fun body =>
        to_varuint a.version ++
        (if !a.intc.isEmpty && !a.intcWritten then
          0x20 :: (to_varuint a.intc.length
            ++ (a.intc.map (fun v => to_varuint v.toNat)).flatten)
        else []) ++
        (if !a.bytec.isEmpty && !a.bytecWritten then write_bytecblock a.bytec else [])
        ++ body)) :=
  ⟨fun _ _ => ⟨rfl, rfl⟩, getBytes_eq⟩

/-- Closed instance of the C2 finalize-shape clause at the session reached by
the concrete scenario. -/
theorem C2_int_interning_and_finalize_witness :
    (∀ x ∈ demoA.intc, (0 : Int) ≤ x)
    ∧ getBytes demoA = (resolveLabels demoA).map (fun body =>
        to_varuint demoA.version ++
        (if !demoA.intc.isEmpty && !demoA.intcWritten then
          0x20 :: (to_varuint demoA.intc.length
            ++ (demoA.intc.map (fun v => to_varuint v.toNat)).flatten)
        else []) ++
        (if !demoA.bytec.isEmpty && !demoA.bytecWritten then write_bytecblock demoA.bytec
        else []) ++ body) :=
  ⟨by decide, C2_int_interning_and_finalize.2 demoA (by decide)⟩

/-- C3: for both constant pools, a reference to index 0–3 is the single
fast-path opcode byte (`0x22`–`0x25` for ints, `0x28`–`0x2b` for bytes), a
reference to index 4–255 is the generic two-byte form (`0x21`/`0x27`
followed by the raw index byte), and an index above 255 or below 0 raises
the pool-overflow / negative-index error without emitting anything. -/
theorem C3_const_ref_encoding (a : Assembler) (i : Int) :
    (0 ≤ i → i ≤ 3 →
      write_intc a i = .ok { a with out := a.out ++ [0x22 + i.toNat] }
      ∧ write_bytec a i = .ok { a with out := a.out ++ [0x28 + i.toNat] })
    ∧ (4 ≤ i → i ≤ 255 →
      write_intc a i = .ok { a with out := a.out ++ [0x21, i.toNat] }
      ∧ write_bytec a i = .ok { a with out := a.out ++ [0x27, i.toNat] })
    ∧ (255 < i →
      write_intc a i = .error "cannot have more than 256 int constants"
      ∧ write_bytec a i = .error "cannot have more than 256 byte constants")
    ∧ (i < 0 →
      write_intc a i = .error "invalid negative intc const index"
      ∧ write_bytec a i = .error "invalid negative bytec const index") :=
  ⟨fun h0 h3 => ⟨write_intc_fast a i h0 h3, write_bytec_fast a i h0 h3⟩,
   fun h4 h255 => ⟨write_intc_generic a i h4 h255, write_bytec_generic a i h4 h255⟩,
   fun h => ⟨write_intc_big a i h, write_bytec_big a i h⟩,
   fun h => ⟨write_intc_neg a i h, write_bytec_neg a i h⟩⟩

/-- Closed instances of all four C3 cases at concrete indices. -/
theorem C3_const_ref_encoding_witness :
    ((0 : Int) ≤ 2 ∧ (2 : Int) ≤ 3
      ∧ write_intc sessionA 2 = .ok { sessionA with out := sessionA.out ++ [0x24] })
    ∧ ((4 : Int) ≤ 7 ∧ (7 : Int) ≤ 255
      ∧ write_intc sessionA 7 = .ok { sessionA with out := sessionA.out ++ [0x21, 7] })
    ∧ ((255 : Int) < 256
      ∧ write_intc sessionA 256 = .error "cannot have more than 256 int constants")
    ∧ ((-1 : Int) < 0
      ∧ write_bytec sessionA (-1) = .error "invalid negative bytec const index") :=
  ⟨⟨by decide, by decide, ((C3_const_ref_encoding sessionA 2).1 (by decide) (by decide)).1⟩,
   ⟨by decide, by decide, ((C3_const_ref_encoding sessionA 7).2.1 (by decide) (by decide)).1⟩,
   ⟨by decide, ((C3_const_ref_encoding sessionA 256).2.2.1 (by decide)).1⟩,
   ⟨by decide, ((C3_const_ref_encoding sessionA (-1)).2.2.2 (by decide)).2⟩⟩

theorem resolveLabels_single (a : Assembler) (sl pc dest : Nat) (lab : String)
    (hrefs : a.labelReferences = [(sl, pc, lab)]) (hlab : a.labels = [(lab, dest)])
    (hge : pc + 3 ≤ dest) (hsmall : dest - (pc + 3) ≤ 0x7fff) :
    resolveLabels a = .ok ((a.out.set (pc + 1) ((dest - (pc + 3)) / 256)).set (pc + 2)
      ((dest - (pc + 3)) % 256)) := by
  unfold resolveLabels
  rw [hrefs, hlab]
  rw [if_neg (by simp)]
  unfold resolveGo resolveOne
  dsimp only
  rw [show lookupLabel [(lab, dest)] lab = some dest from by
    unfold lookupLabel; rw [if_pos rfl]]
  dsimp only
  rw [if_neg (by omega), if_neg (by omega)]
  simp only [exbind_ok]
  rfl

theorem patch_example_list (p : Nat) :
    ((List.replicate p 0 ++ [0x40, 0x00, 0x00] ++ List.replicate 7 0).set (p + 1) 0).set
      (p + 2) 7 = List.replicate p 0 ++ [0x40, 0x00, 0x07] ++ List.replicate 7 0 := by
  induction p with
  | zero => rfl
  | succ q ih =>
    simp only [List.replicate_succ, List.cons_append, List.set]
    exact congrArg (List.cons 0) ih

/-- C4: label resolution processes a recorded reference `(line, pc, label)`
by failing on an undefined label, failing on `labelOffset < pc + 3`
(backward jump), failing on a jump beyond `0x7fff`, and otherwise patching
the two bytes after the branch opcode with the big-endian 16-bit value
`labelOffset - (pc + 3)`; in particular a branch at offset `p` whose label
sits at offset `p + 10` gets bytes `p+1, p+2` patched to big-endian 7. -/
theorem C4_label_resolution (labels : List (String × Nat)) (program : List Nat)
    (sl pc : Nat) (lab : String) :
    (lookupLabel labels lab = none →
      resolveOne labels program (sl, pc, lab)
        = .error (":" ++ toString sl ++ " reference to undefined label " ++ pyRepr lab))
    ∧ (∀ dest, lookupLabel labels lab = some dest → dest < pc + 3 →
      resolveOne labels program (sl, pc, lab)
        = .error (":" ++ toString sl ++ " label " ++ pyRepr lab ++
            " is before reference but only forward jumps are allowed"))
    ∧ (∀ dest, lookupLabel labels lab = some dest → pc + 3 ≤ dest →
        0x7fff < dest - (pc + 3) →
      resolveOne labels program (sl, pc, lab)
        = .error (":" ++ toString sl ++ " label " ++ pyRepr lab ++ " is too far away"))
    ∧ (∀ dest, lookupLabel labels lab = some dest → pc + 3 ≤ dest →
        dest - (pc + 3) ≤ 0x7fff →
      resolveOne labels program (sl, pc, lab)
        = .ok ((program.set (pc + 1) ((dest - (pc + 3)) / 256)).set (pc + 2)
            ((dest - (pc + 3)) % 256)))
    ∧ (∀ p : Nat,
      resolveLabels { sessionA with
          out := List.replicate p 0 ++ [0x40, 0x00, 0x00] ++ List.replicate 7 0,
          labels := [("L", p + 10)], labelReferences := [(1, p, "L")] }
        = .ok (List.replicate p 0 ++ [0x40, 0x00, 0x07] ++ List.replicate 7 0)) := by
  refine ⟨?_, ?_, ?_, ?_, ?_⟩
  · intro h
    unfold resolveOne
    dsimp only
    rw [h]
  · intro dest hl hlt
    unfold resolveOne
    dsimp only
    rw [hl]
    dsimp only
    rw [if_pos hlt]
  · intro dest hl hge hfar
    unfold resolveOne
    dsimp only
    rw [hl]
    dsimp only
    rw [if_neg (by omega), if_pos (by omega)]
  · intro dest hl hge hsmall
    unfold resolveOne
    dsimp only
    rw [hl]
    dsimp only
    rw [if_neg (by omega), if_neg (by omega)]
  · intro p
    rw [resolveLabels_single _ 1 p (p + 10) "L" rfl rfl (by omega) (by omega)]
    have h7 : p + 10 - (p + 3) = 7 := by omega
    rw [h7]
    exact congrArg Except.ok (patch_example_list p)

/-- Closed instance of C4's patch clause: a reference at offset 0 to a label
at offset 13 patches bytes 1 and 2 with big-endian 10. -/
theorem C4_label_resolution_witness :
    lookupLabel [("x", 13)] "x" = some 13 ∧ 0 + 3 ≤ 13 ∧ 13 - (0 + 3) ≤ 0x7fff
    ∧ resolveOne [("x", 13)] (List.replicate 13 0) (1, 0, "x")
      = .ok (((List.replicate 13 0).set (0 + 1) ((13 - (0 + 3)) / 256)).set (0 + 2)
          ((13 - (0 + 3)) % 256)) :=
  ⟨rfl, by decide, by decide,
   (C4_label_resolution [("x", 13)] (List.replicate 13 0) 1 0 "x").2.2.2.1 13 rfl
     (by decide) (by decide)⟩

/-- C5 counterexample: the claim quantifies over every assembler operation,
but an explicit `intcblock 5 5` leaves the in-memory integer pool (and the
emitted block) with two equal entries. -/
theorem C5_pool_dedup_cex :
    (assembleLineSource (Assembler.init emptySpec noAddr "" 1) ["intcblock 5 5"]).map
      (fun a => (a.intc, a.out)) = .ok ([5, 5], [0x20, 0x02, 0x05, 0x05])
    ∧ ¬ ([(5 : Int), 5].Nodup) :=
  ⟨rfl, by decide⟩

theorem write_intc_pools (a : Assembler) (i : Int) (a' : Assembler)
    (h : write_intc a i = .ok a') : a'.intc = a.intc ∧ a'.bytec = a.bytec := by
  unfold write_intc at h
  split_ifs at h <;> cases h <;> exact ⟨rfl, rfl⟩

theorem write_bytec_pools (a : Assembler) (i : Int) (a' : Assembler)
    (h : write_bytec a i = .ok a') : a'.intc = a.intc ∧ a'.bytec = a.bytec := by
  unfold write_bytec at h
  split_ifs at h <;> cases h <;> exact ⟨rfl, rfl⟩

/-- C5 amended: interning the same value twice yields the same index and the
same pool both times; interning preserves pool distinctness (so pools built
by `int`/`byte`/`addr` interning alone never hold two equal entries, and a
block later emitted from such a pool lists each value once); but an explicit
`intcblock` replaces the pool with exactly its listed values, so the
invariant holds only when those are pairwise distinct. -/
theorem C5_pool_dedup_amended :
    (∀ (α : Type) [DecidableEq α] (p : List α) (v : α),
      internConst (internConst p v).2 v = internConst p v)
    ∧ (∀ (α : Type) [DecidableEq α] (p : List α) (v : α),
      p.Nodup → (internConst p v).2.Nodup)
    ∧ (∀ (a : Assembler) (op : Option Op) (args : List String) (a' : Assembler),
      assemble_int a op args = .ok a' →
      a.intc.Nodup → a'.intc.Nodup ∧ a'.bytec = a.bytec)
    ∧ (∀ (a : Assembler) (val : List Nat) (a' : Assembler),
      bytestring a val = .ok a' →
      a.bytec.Nodup → a'.bytec.Nodup ∧ a'.intc = a.intc)
    ∧ (∀ (a : Assembler) (op : Option Op) (args : List String) (vals : List Int)
        (a' : Assembler),
      args.mapM pyIntBase0 = .ok vals → assemble_intcblock a op args = .ok a' →
      a'.intc = vals ∧ a'.intcWritten = true) := by
  refine ⟨fun α _ p v => internConst_twice p v, fun α _ p v h => internConst_nodup p v h,
    ?_, ?_, ?_⟩
  · intro a op args a' h hnd
    unfold assemble_int at h
    split at h
    · rename_i arg0
      cases hp : pyIntBase0 arg0 with
      | error e => rw [hp] at h; cases h
      | ok val =>
        rw [hp] at h
        simp only [exbind_ok] at h
        obtain ⟨hi, hb⟩ := write_intc_pools _ _ _ h
        exact ⟨hi.symm ▸ internConst_nodup a.intc val hnd, hb⟩
    · cases h
  · intro a val a' h hnd
    unfold bytestring at h
    obtain ⟨hi, hb⟩ := write_bytec_pools _ _ _ h
    exact ⟨hb.symm ▸ internConst_nodup a.bytec val hnd, hi⟩
  · intro a op args vals a' hm h
    unfold assemble_intcblock at h
    rw [hm] at h
    simp only [exbind_ok] at h
    cases hb : write_intcblock vals with
    | error e => rw [hb] at h; cases h
    | ok blk =>
      rw [hb] at h
      simp only [exbind_ok] at h
      cases h
      exact ⟨rfl, rfl⟩

/-- Closed instance of C5's intern clauses on a concrete distinct pool. -/
theorem C5_pool_dedup_amended_witness :
    ([(1 : Int), 2].Nodup)
    ∧ (internConst [(1 : Int), 2] 3).2.Nodup
    ∧ internConst (internConst [(1 : Int), 2] 3).2 3 = internConst [(1 : Int), 2] 3 :=
  ⟨by decide, C5_pool_dedup_amended.2.1 Int [(1 : Int), 2] 3 (by decide),
   C5_pool_dedup_amended.1 Int [(1 : Int), 2] 3⟩

/-- C6 counterexample: `byte` given a surplus second argument succeeds (the
extra token is silently ignored — both runs produce identical state), and
`bnz` likewise uses only its first argument; the claim says both must fail
on a wrong argument count. -/
theorem C6_arity_cex :
    (assembleLine sessionA "byte 0x61 0x62").map (fun a => (a.out, a.bytec))
      = .ok ([0x28], [[0x61]])
    ∧ (assembleLine sessionA "byte 0x61").map (fun a => (a.out, a.bytec))
      = .ok ([0x28], [[0x61]])
    ∧ (assembleLine sessionA "bnz target junk").map
        (fun a => (a.out, a.labelReferences))
      = .ok ([0x40, 0x00, 0x00], [(0, 0, "target")])
    ∧ (assembleLine sessionA "bnz target").map (fun a => (a.out, a.labelReferences))
      = .ok ([0x40, 0x00, 0x00], [(0, 0, "target")]) :=
  ⟨rfl, rfl, rfl, rfl⟩

/-- C6 amended: every handler with a fixed argument count other than `byte`
and `bnz` fails with its descriptive count message on a wrong count; `byte`
rejects only an empty argument list and otherwise ignores whatever tokens
the byte-constant parser leaves unconsumed; `bnz` uses only its first
argument, ignoring surplus, and fails with a bare `IndexError` on none. -/
theorem C6_arity_amended :
    (∀ a op args, args.length ≠ 1 → assemble_int a op args = .error "int expects 1 arg")
    ∧ (∀ a op args, args.length ≠ 1 → assemble_intc a op args = .error "intc expects 1 arg")
    ∧ (∀ a op args, args.length ≠ 1 →
        assemble_bytec a op args = .error "bytec expects 1 arg")
    ∧ (∀ a op args, args.length ≠ 1 → assemble_addr a op args = .error "addr expects 1 arg")
    ∧ (∀ a (o : Op) args, args.length ≠ 1 →
        assemble_arg a (some o) args
          = .error (o.Name ++ " expects 1 arg, got " ++ pyReprList args))
    ∧ (∀ a (o : Op) args, args.length ≠ 1 →
        load_store a (some o) args
          = .error (o.Name ++ " expects 1 arg, got " ++ pyReprList args))
    ∧ (∀ a (o : Op) args, args.length ≠ 1 →
        assemble_txn a (some o) args = .error (o.Name ++ " expects one argument"))
    ∧ (∀ a (o : Op) args, args.length ≠ 1 →
        assemble_global a (some o) args = .error (o.Name ++ " expects one argument"))
    ∧ (∀ a (o : Op) args, args.length ≠ 2 →
        assemble_gtxn a (some o) args = .error (o.Name ++ " expects two arguments"))
    ∧ (∀ a op, assemble_byte a op [] = .error "byte expects an args")
    ∧ (∀ a op args v leftover, parseByteConstant args = .ok (v, leftover) →
        assemble_byte a op args = bytestring a v)
    ∧ (∀ a op, assemble_bnz a op [] = .error "IndexError: list index out of range")
    ∧ (∀ a op lab rest, assemble_bnz a op (lab :: rest) = assemble_bnz a op [lab]) := by
  refine ⟨?_, ?_, ?_, ?_, ?_, ?_, ?_, ?_, ?_, fun a op => rfl, ?_, fun a op => rfl,
    fun a op lab rest => rfl⟩
  · intro a op args h
    rcases args with _ | ⟨x, _ | ⟨y, r⟩⟩
    · rfl
    · exact absurd rfl h
    · rfl
  · intro a op args h
    rcases args with _ | ⟨x, _ | ⟨y, r⟩⟩
    · rfl
    · exact absurd rfl h
    · rfl
  · intro a op args h
    rcases args with _ | ⟨x, _ | ⟨y, r⟩⟩
    · rfl
    · exact absurd rfl h
    · rfl
  · intro a op args h
    rcases args with _ | ⟨x, _ | ⟨y, r⟩⟩
    · rfl
    · exact absurd rfl h
    · rfl
  · intro a o args h
    rcases args with _ | ⟨x, _ | ⟨y, r⟩⟩
    · rfl
    · exact absurd rfl h
    · rfl
  · intro a o args h
    rcases args with _ | ⟨x, _ | ⟨y, r⟩⟩
    · rfl
    · exact absurd rfl h
    · rfl
  · intro a o args h
    rcases args with _ | ⟨x, _ | ⟨y, r⟩⟩
    · rfl
    · exact absurd rfl h
    · rfl
  · intro a o args h
    rcases args with _ | ⟨x, _ | ⟨y, r⟩⟩
    · rfl
    · exact absurd rfl h
    · rfl
  · intro a o args h
    rcases args with _ | ⟨x, _ | ⟨y, _ | ⟨z, r⟩⟩⟩
    · rfl
    · rfl
    · exact absurd rfl h
    · rfl
  · intro a op args v leftover hp
    rcases args with _ | ⟨x, r⟩
    · exact absurd hp (by simp [parseByteConstant])
    · unfold assemble_byte
      rw [if_neg (by simp)]
      rw [hp]
      simp only [exbind_ok]

/-- Closed instance of C6's count-checking clause for `int`. -/
theorem C6_arity_amended_witness :
    (["5", "6"] : List String).length ≠ 1
    ∧ assemble_int sessionA none ["5", "6"] = .error "int expects 1 arg" :=
  ⟨by decide, C6_arity_amended.1 sessionA none ["5", "6"] (by decide)⟩

/-- C7 counterexample: the failing single-line source `zzz` (line 1) surfaces
the error `unknown opcode 'zzz'`, a message containing no digit at all, so
the 1-based line number is not attached to the surfaced error. -/
theorem C7_line_number_cex :
    AssembleString emptySpec noAddr "zzz" = .error ("unknown opcode " ++ pyRepr "zzz")
    ∧ ("unknown opcode " ++ pyRepr "zzz").data.all (fun c => !c.isDigit) = true :=
  ⟨rfl, by decide⟩

/-- C7 amended: the first failing line aborts the whole job with that line's
error message and no binary is produced (later lines are never assembled);
the session's counter equals the failing line's 1-based position, and the
line is assembled with the counter already set to that position, but only
label-resolution errors embed the recorded line number in the message
itself. -/
theorem C7_abort_amended :
    (∀ (spec : String → Option Op) (dec : String → Except String (List Nat))
      (text : String) (lines1 : List String) (line : String) (lines2 : List String)
      (b : Assembler) (msg : String),
      pySplitlines text = lines1 ++ line :: lines2 →
      assembleLineSource (Assembler.init spec dec "" 1) lines1 = .ok b →
      assembleLine { b with sourceLine := b.sourceLine + 1 } line = .error msg →
      AssembleString spec dec text = .error msg ∧ b.sourceLine = lines1.length)
    ∧ (∀ (labels : List (String × Nat)) (program : List Nat) (sl pc : Nat) (lab : String),
      lookupLabel labels lab = none →
      resolveOne labels program (sl, pc, lab)
        = .error (":" ++ toString sl ++ " reference to undefined label " ++ pyRepr lab)) := by
  constructor
  · intro spec dec text lines1 line lines2 b msg hsplit hok hfail
    constructor
    · unfold AssembleString
      rw [hsplit, assembleLineSource_append, hok]
      simp only [exbind_ok]
      simp only [assembleLineSource]
      rw [hfail]
      simp only [exbind_err]
    · have h := (assembleLineSource_counter lines1 _ b hok).1
      have h0 : (Assembler.init spec dec "" 1).sourceLine = 0 := rfl
      omega
  · intro labels program sl pc lab h
    unfold resolveOne
    dsimp only
    rw [h]

theorem run_name_indep (spec : String → Option Op)
    (dec : String → Except String (List Nat)) (n : String) (v : Int) (text : String) :
    (assembleLineSource (Assembler.init spec dec n v) (pySplitlines text) >>= getBytes)
      = (assembleLineSource (Assembler.init spec dec "" 1) (pySplitlines text)
          >>= getBytes) := by
  have hinit : Assembler.init spec dec n v = upd n 1 (Assembler.init spec dec "" 1) := rfl
  rw [hinit, assembleLineSource_upd]
  cases hb : assembleLineSource (Assembler.init spec dec "" 1) (pySplitlines text) with
  | error e => simp only [exmap_err, exbind_err]
  | ok b =>
    simp only [exmap_ok, exbind_ok]
    have hv : b.version = 1 := (assembleLineSource_counter _ _ _ hb).2.2
    have h1 : upd n 1 b = { b with sourceName := n } := by unfold upd; rw [hv]
    rw [h1]
    rfl

/-- C8: any two freshly constructed sessions over the same opcode table and
address decoder — whatever `sourceName` and `version` arguments their
constructors received — assemble the same source text to byte-identical
results, and `AssembleString` is exactly such a run; the source text is the
only varying input that determines the output. -/
theorem C8_determinism (spec : String → Option Op)
    (dec : String → Except String (List Nat)) (n1 n2 : String) (v1 v2 : Int)
    (text : String) :
    (assembleLineSource (Assembler.init spec dec n1 v1) (pySplitlines text) >>= getBytes)
      = (assembleLineSource (Assembler.init spec dec n2 v2) (pySplitlines text)
          >>= getBytes)
    ∧ AssembleString spec dec text
      = (assembleLineSource (Assembler.init spec dec n1 v1) (pySplitlines text)
          >>= getBytes) :=
  ⟨(run_name_indep spec dec n1 v1 text).trans (run_name_indep spec dec n2 v2 text).symm,
   (run_name_indep spec dec n1 v1 text).symm⟩

/-- Closed instance of C7's abort clause: in the two-line source
`int 5`, `zzz`, line 2 fails with `unknown opcode 'zzz'` (a message without
the line number), the whole job aborts with exactly that error, and the
session counter after line 1 is 1. -/
theorem C7_abort_amended_witness :
    pySplitlines "int 5\nzzz" = ["int 5"] ++ "zzz" :: []
    ∧ assembleLineSource (Assembler.init emptySpec noAddr "" 1) ["int 5"]
        = .ok demoAfterInt5
    ∧ assembleLine { demoAfterInt5 with sourceLine := demoAfterInt5.sourceLine + 1 } "zzz"
        = .error ("unknown opcode " ++ pyRepr "zzz")
    ∧ AssembleString emptySpec noAddr "int 5\nzzz"
        = .error ("unknown opcode " ++ pyRepr "zzz")
    ∧ demoAfterInt5.sourceLine = (["int 5"] : List String).length :=
  ⟨rfl, rfl, rfl,
   (C7_abort_amended.1 emptySpec noAddr "int 5\nzzz" ["int 5"] "zzz" [] demoAfterInt5
     ("unknown opcode " ++ pyRepr "zzz") rfl rfl rfl).1,
   (C7_abort_amended.1 emptySpec noAddr "int 5\nzzz" ["int 5"] "zzz" [] demoAfterInt5
     ("unknown opcode " ++ pyRepr "zzz") rfl rfl rfl).2⟩

/-- C9: the constructor stores 1 as the session version no matter what
version argument it was given, the line pass never changes it, and every
binary `getBytes` returns begins with `to_varuint 1 = [1]`. -/
theorem C9_version_param_ignored (spec : String → Option Op)
    (dec : String → Except String (List Nat)) (name : String) (vArg : Int) :
    (Assembler.init spec dec name vArg).version = 1
    ∧ (∀ lines b, assembleLineSource (Assembler.init spec dec name vArg) lines = .ok b →
        b.version = 1 ∧ ∀ bs, getBytes b = .ok bs → ∃ rest, bs = to_varuint 1 ++ rest) := by
  refine ⟨rfl, fun lines b hb => ?_⟩
  have hv : b.version = 1 := (assembleLineSource_counter _ _ _ hb).2.2
  refine ⟨hv, fun bs hbs => ?_⟩
  obtain ⟨rest, hrest⟩ := getBytes_ok_split b bs hbs
  rw [hv] at hrest
  exact ⟨rest, hrest⟩

/-- Closed instance of C9 with version argument 77: the empty program still
assembles to the version byte `[1]`. -/
theorem C9_version_param_ignored_witness :
    assembleLineSource (Assembler.init emptySpec noAddr "src" 77) []
        = .ok (Assembler.init emptySpec noAddr "src" 77)
    ∧ getBytes (Assembler.init emptySpec noAddr "src" 77) = .ok [1]
    ∧ (Assembler.init emptySpec noAddr "src" 77).version = 1
    ∧ ∃ rest, ([1] : List Nat) = to_varuint 1 ++ rest :=
  ⟨rfl, rfl, (C9_version_param_ignored emptySpec noAddr "src" 77).1,
   ((C9_version_param_ignored emptySpec noAddr "src" 77).2 []
     (Assembler.init emptySpec noAddr "src" 77) rfl).2 [1] rfl⟩

/-- C10 counterexample: the claim's quantification covers an `intcblock`
declaring 256 values; a later `int` with a new value then fails with the
pool-overflow error instead of succeeding. -/
theorem C10_post_block_int_cex :
    assembleLineSource (Assembler.init emptySpec noAddr "" 1)
      [String.intercalate " " ("intcblock" :: (List.range 256).map (fun k => toString k)),
       "int 256"]
      = .error "cannot have more than 256 int constants" := by
  rfl

theorem getBytes_written (a : Assembler) (hw : a.intcWritten = true) :
    getBytes a = (resolveLabels a).map (fun body =>
      to_varuint a.version ++
      (if !a.bytec.isEmpty && !a.bytecWritten then write_bytecblock a.bytec else [])
      ++ body) := by
  unfold getBytes
  rw [if_neg (by simp [hw]), expure]
  simp only [exbind_ok]
  cases hr : resolveLabels a with
  | error e => simp only [exbind_err, exmap_err]
  | ok body => simp only [exbind_ok, exmap_ok, List.append_nil]

/-- C10 amended: after an explicit `intcblock` with `k ≤ 255` values, a
later `int` with a fresh value succeeds, appending the value at index `k`
and emitting the reference bytes for index `k`, and `getBytes` emits no
further int block (the written flag is already set) — so the binary holds a
reference to an index the emitted block never declared; for `k ≥ 256` the
reference emission fails with the pool-overflow error instead
(`C10_post_block_int_cex`). -/
theorem C10_post_block_int_amended (a : Assembler) (op : Option Op) (s : String) (v : Int)
    (hw : a.intcWritten = true) (hlen : a.intc.length ≤ 255)
    (hparse : pyIntBase0 s = .ok v) (hnew : v ∉ a.intc) :
    assemble_int a op [s]
      = .ok { a with intc := a.intc ++ [v], out := a.out ++ intcRefBytes a.intc.length }
    ∧ (∀ a', assemble_int a op [s] = .ok a' →
        a'.intcWritten = true
        ∧ getBytes a' = (resolveLabels a').map (fun body =>
            to_varuint a'.version ++
            (if !a'.bytec.isEmpty && !a'.bytecWritten then write_bytecblock a'.bytec
            else []) ++ body)) := by
  have hscan : scanIndex a.intc v = none := (scanIndex_none_iff _ _).mpr hnew
  have hic : internConst a.intc v = (a.intc.length, a.intc ++ [v]) := by
    unfold internConst
    rw [hscan]
  have hfirst : assemble_int a op [s]
      = .ok { a with intc := a.intc ++ [v], out := a.out ++ intcRefBytes a.intc.length } := by
    unfold assemble_int
    dsimp only
    rw [hparse]
    simp only [exbind_ok, hic]
    exact write_intc_le _ _ (Int.ofNat_nonneg _) (Int.ofNat_le.mpr hlen)
  refine ⟨hfirst, fun a' ha' => ?_⟩
  rw [hfirst] at ha'
  cases ha'
  exact ⟨hw, getBytes_written _ hw⟩

/-- Closed instance of C10: after `intcblock 5`, the line-level `int 7`
appends 7 at index 1 and emits the fast reference `0x23`. -/
theorem C10_post_block_int_amended_witness :
    demoBlocked.intcWritten = true ∧ demoBlocked.intc.length ≤ 255
    ∧ pyIntBase0 "7" = .ok 7 ∧ (7 : Int) ∉ demoBlocked.intc
    ∧ assemble_int demoBlocked none ["7"]
        = .ok { demoBlocked with
                  intc := demoBlocked.intc ++ [7],
                  out := demoBlocked.out ++ intcRefBytes demoBlocked.intc.length } :=
  ⟨rfl, by decide, rfl, by decide,
   (C10_post_block_int_amended demoBlocked none "7" 7 rfl (by decide) rfl (by decide)).1⟩
